import Mathlib

/-!
Verification development for the GrandArchiveProxier repository.

The Python sources (`printerGA.py`, `generate_from_tts.py`) are shallowly
embedded below:

* JSON values are the inductive `Json` (Python dicts become ordered
  association lists, matching insertion order of `dict`).
* The `GADeckPrinter` class is the structure `GADeckPrinter`; its mutating
  methods become functions returning the new printer state.
* Fallible Python code (TypeError / ValueError raised by `int(...)` or by
  keyword-argument expansion) is embedded with `Except PyErr`.
* Page-layout arithmetic (floats in Python, all values exact here) is
  carried out over `ℚ`; the reportlab `letter` page size is (612, 792)
  points and the margin is 0.5 inch = 36 points, as in the source.
* File and network I/O is outside the embedding: functions receive the
  decoded JSON value (or the already-normalized printer) as an argument.
-/

/-- A decoded JSON value (the result of Python's `json.load`).  Objects keep
their fields in insertion order, as Python dicts do. -/
inductive Json where
  | null : Json
  | bool (b : Bool) : Json
  | num (n : Int) : Json
  | str (s : String) : Json
  | arr (items : List Json) : Json
  | obj (fields : List (String × Json)) : Json

/-- Python truthiness (`bool(x)`) for JSON-decoded values: `None`, `False`,
`0`, `""`, `[]`, `{}` are falsy, everything else truthy. -/
def truthy : Json → Bool
  | .null => false
  | .bool b => b
  | .num n => n != 0
  | .str s => s != ""
  | .arr l => !l.isEmpty
  | .obj fs => !fs.isEmpty

/-- `d.get(k)` on a Python dict: the value of the first binding of `k`
(`none` when the key is absent). -/
def jget (fs : List (String × Json)) (k : String) : Option Json :=
  List.lookup k fs

/-- Python `a or b` where `a` is the result of a `.get(k)` (so `None`,
i.e. `Option.none`, is falsy) and `b` is the fallback expression. -/
def pyOr2 (a : Option Json) (b : Json) : Json :=
  match a with
  | some v => if truthy v then v else b
  | none => b

/-- Exceptions raised by the embedded Python fragments. -/
inductive PyErr where
  | typeError (msg : String) : PyErr
  | valueError (msg : String) : PyErr
deriving DecidableEq, Repr

/-- Python `int(x)` on a JSON-decoded value: ints pass through, booleans
coerce to 0/1, decimal strings parse, `None` and containers raise. -/
def pyInt : Json → Except PyErr Int
  | .num n => .ok n
  | .bool b => .ok (if b then 1 else 0)
  | .str s =>
    match s.toInt? with
    | some n => .ok n
    | none => .error (.valueError ("invalid literal for int: " ++ s))
  | .null => .error (.typeError "int() argument must not be None")
  | .arr _ => .error (.typeError "int() argument must not be a list")
  | .obj _ => .error (.typeError "int() argument must not be a dict")

/-- Extract a string-valued field with a default.  The typed embedding
stores strings in the typed card fields, so a non-string JSON value in a
string position is embedded as a type error. -/
def getStrD (fs : List (String × Json)) (k : String) (d : String) :
    Except PyErr String :=
  match jget fs k with
  | none => .ok d
  | some (.str s) => .ok s
  | some _ => .error (.typeError ("expected string for key " ++ k))

/-- Extract an int-valued field with a default (no coercion: this embeds
plain storage into an int-typed position, not Python's `int(...)`). -/
def getIntD (fs : List (String × Json)) (k : String) (d : Int) :
    Except PyErr Int :=
  match jget fs k with
  | none => .ok d
  | some (.num n) => .ok n
  | some _ => .error (.typeError ("expected int for key " ++ k))

/-- One card record of the uniform deck, mirroring the dict built by
`GADeckPrinter.add_card`. -/
structure Card where
  name : String
  type : String
  cost : Int
  power : Int
  toughness : Int
  ability : String
  quantity : Int
  image_url : String
deriving DecidableEq, Repr

/-- The state of a `GADeckPrinter` instance.  The `card_images` and
`image_cache` dicts of the class only feed image downloads (I/O) and are
not part of the embedding. -/
structure GADeckPrinter where
  deck_name : String
  cards_per_row : Nat
  cards_per_column : Nat
  cards : List Card
deriving DecidableEq, Repr

/-- `GADeckPrinter()` with the constructor's default arguments. -/
def defaultPrinter : GADeckPrinter :=
  { deck_name := "GA_Deck", cards_per_row := 3, cards_per_column := 3, cards := [] }

/-- `GADeckPrinter.add_card`: appends one card dict to `self.cards`. -/
def GADeckPrinter.add_card (p : GADeckPrinter) (name : String)
    (card_type : String) (cost : Int) (power : Int) (toughness : Int)
    (ability : String) (quantity : Int) (image_url : String) : GADeckPrinter :=
  { p with cards := p.cards ++
      [{ name := name, type := card_type, cost := cost, power := power,
         toughness := toughness, ability := ability, quantity := quantity,
         image_url := image_url }] }

/-! ### Grid paginator (`create_printable_cards_pdf`) -/

/-- reportlab `letter` page width in points. -/
def pageWidth : ℚ := 612

/-- reportlab `letter` page height in points. -/
def pageHeight : ℚ := 792

/-- `margin = 0.5 * inch` from `create_printable_cards_pdf`. -/
def pdfMargin : ℚ := 36

/-- One grid slot drawn on a page: its lower-left corner, its size and the
card occupying it. -/
structure Cell where
  x : ℚ
  y : ℚ
  width : ℚ
  height : ℚ
  card : Card
deriving DecidableEq, Repr

/-- The canvas state inside the drawing loop: finished pages, cells of the
current page, and the running `card_index`. -/
structure LayoutState where
  pages : List (List Cell)
  cur : List Cell
  idx : Nat
deriving Repr

/-- The cell computed for per-page index `j`:
`row = j // cards_per_row`, `col = j % cards_per_row`,
`x = margin + col * card_width`,
`y = page_height - margin - (row + 1) * card_height`. -/
def cellAt (rows cols : Nat) (j : Nat) (cd : Card) : Cell :=
  let cw : ℚ := (pageWidth - 2 * pdfMargin) / (rows : ℚ)
  let ch : ℚ := (pageHeight - 2 * pdfMargin) / (cols : ℚ)
  { x := pdfMargin + ((j % rows : Nat) : ℚ) * cw
    y := pageHeight - pdfMargin - (((j / rows : Nat) : ℚ) + 1) * ch
    width := cw
    height := ch
    card := cd }

/-- One iteration of the inner loop of `create_printable_cards_pdf`: start a
new page when the index has reached the page capacity, then draw the copy at
the current index. -/
def placeCopy (rows cols : Nat) (st : LayoutState) (cd : Card) : LayoutState :=
  let st :=
    if st.idx ≥ rows * cols then
      { pages := st.pages ++ [st.cur], cur := [], idx := 0 }
    else st
  { pages := st.pages, cur := st.cur ++ [cellAt rows cols st.idx cd],
    idx := st.idx + 1 }

/-- The `for qty in range(card["quantity"])` loop: one `placeCopy` per
physical copy (a negative quantity gives an empty `range`). -/
def placeCard (rows cols : Nat) (st : LayoutState) (cd : Card) : LayoutState :=
  (List.replicate cd.quantity.toNat cd).foldl (placeCopy rows cols) st

/-- `c.save()`: flush the in-progress page when it has content. -/
def finalizePages (st : LayoutState) : List (List Cell) :=
  if st.cur.isEmpty then st.pages else st.pages ++ [st.cur]

/-- `create_printable_cards_pdf`, abstracted from the canvas I/O: the list
of produced pages, each a list of drawn cells in drawing order. -/
def create_printable_cards_pdf (p : GADeckPrinter) : List (List Cell) :=
  finalizePages
    (p.cards.foldl (placeCard p.cards_per_row p.cards_per_column)
      { pages := [], cur := [], idx := 0 })

/-- The flattened sequence of physical copies: each card repeated
`quantity` times, in deck order. -/
def flatCopies (cards : List Card) : List Card :=
  (cards.map (fun cd => List.replicate cd.quantity.toNat cd)).flatten

/-- Split a list into consecutive chunks of `cap` elements (the last chunk
may be shorter).  Characterizes how the drawing loop groups copies into
pages. -/
def chunkPages (cap : Nat) (l : List Card) : List (List Card) :=
  if h : cap = 0 ∨ l = [] then []
  else l.take cap :: chunkPages cap (l.drop cap)
termination_by l.length
decreasing_by
  have hcap : cap ≠ 0 := fun hc => h (Or.inl hc)
  have hl : l ≠ [] := fun hl => h (Or.inr hl)
  have : 0 < l.length := List.length_pos.mpr hl
  simp only [List.length_drop]
  omega

/-- Cells of one page, starting at per-page index `n`. -/
def cellsFrom (rows cols : Nat) (n : Nat) : List Card → List Cell
  | [] => []
  | cd :: l => cellAt rows cols n cd :: cellsFrom rows cols (n + 1) l

/-- Reference form of the layout: chunk the flat copy list into pages of
`rows * cols` cells and give the `j`-th cell of each page its grid
coordinates. -/
def pagesSpec (rows cols : Nat) (l : List Card) : List (List Cell) :=
  (chunkPages (rows * cols) l).map (cellsFrom rows cols 0)

/-! ### TTS save-file loader (`load_from_tts`) -/

/-- One entry of the `CustomDeck` mapping: only its `FaceURL` is read. -/
structure CustomDeckEntry where
  FaceURL : Option String
deriving DecidableEq, Repr

/-- One record of `ContainedObjects`; every field is optional, matching the
`.get(key, default)` reads in `load_from_tts`. -/
structure TTSContainedObject where
  Nickname : Option String
  Description : Option String
  CardID : Option Int
deriving DecidableEq, Repr

/-- The first element of `ObjectStates` (the deck container). -/
structure TTSDeckObject where
  Nickname : Option String
  CustomDeck : List (String × CustomDeckEntry)
  ContainedObjects : List TTSContainedObject
deriving DecidableEq, Repr

/-- A TTS save file, as far as `load_from_tts` reads it. -/
structure TTSSaveFile where
  ObjectStates : List TTSDeckObject
deriving DecidableEq, Repr

/-- `card_obj.get("Nickname", "Unknown Card")`. -/
def ttsName (r : TTSContainedObject) : String :=
  r.Nickname.getD "Unknown Card"

/-- The `for card in self.cards: if card["name"] == card_name:
card["quantity"] += 1; break` loop: bump the quantity of the first card
with the given name. -/
def incFirstQuantity (name : String) : List Card → List Card
  | [] => []
  | cd :: rest =>
    if cd.name = name then { cd with quantity := cd.quantity + 1 } :: rest
    else cd :: incFirstQuantity name rest

/-- The body of the `for card_obj in contained_objects` loop of
`load_from_tts`.  The second state component is the key list of the
`card_count` dict (only key membership is ever read from it). -/
def load_from_tts_step (images : List (String × String))
    (st : GADeckPrinter × List String) (r : TTSContainedObject) :
    GADeckPrinter × List String :=
  let card_name := ttsName r
  let card_desc := r.Description.getD ""
  let card_id := r.CardID.getD 0
  let image_url :=
    (List.lookup (toString (Int.fdiv card_id 100)) images).getD ""
  if st.2.contains card_name then
    ({ st.1 with cards := incFirstQuantity card_name st.1.cards }, st.2)
  else
    (st.1.add_card card_name "Card" 0 0 0 card_desc 1 image_url,
     st.2 ++ [card_name])

/-- `load_from_tts`: read the first object state, set the deck name, build
the deck-id → FaceURL map (`CardID // 100`, by Python floor division), then
fold the contained card objects into the deck, merging repeated nicknames
into one entry with an incremented quantity. -/
def load_from_tts (p : GADeckPrinter) (save : TTSSaveFile) : GADeckPrinter :=
  match save.ObjectStates with
  | [] => p
  | deckObj :: _ =>
    let p := { p with deck_name := deckObj.Nickname.getD "GA_Deck" }
    let images := deckObj.CustomDeck.map (fun q => (q.1, q.2.FaceURL.getD ""))
    (deckObj.ContainedObjects.foldl (load_from_tts_step images) (p, [])).1

/-- The sequence of first occurrences of each string, in order. -/
def firstDedup : List String → List String
  | [] => []
  | a :: l => a :: firstDedup (l.filter (fun x => x ≠ a))
termination_by l => l.length
decreasing_by
  have := List.length_filter_le (fun x => decide (x ≠ a)) l
  simp only [List.length_cons]
  omega

/-- `newNames seen l` lists the elements of `l` not in `seen`, first
occurrences only, in order (the names `card_count` gains along a run). -/
def newNames : List String → List String → List String
  | _, [] => []
  | seen, a :: l =>
    if seen.contains a then newNames seen l
    else a :: newNames (seen ++ [a]) l

/-- Quantity of the first card named `n` (0 when there is none). -/
def baseQty (cards : List Card) (n : String) : Int :=
  match cards.find? (fun cd => cd.name == n) with
  | some cd => cd.quantity
  | none => 0

/-! ### `build_printer_from_deck_json` (`generate_from_tts.py`) -/

/-- Python `x == "main"` on a JSON value (only the string `"main"`
compares equal; any non-string compares unequal). -/
def isMainTag : Json → Bool
  | .str s => s == "main"
  | _ => false

/-- `d.setdefault(k, v)`: insert the binding at the end when the key is
absent; never overwrite an existing binding. -/
def setdefault (fs : List (String × Json)) (k : String) (v : Json) :
    List (String × Json) :=
  if fs.any (fun q => q.1 == k) then fs else fs ++ [(k, v)]

/-- Tag one record of a list-valued sub-deck:
`info.setdefault("_source_deck", k)`; non-dict records are untouched. -/
def tagArrRecord (k : String) : Json → Json
  | .obj fs => .obj (setdefault fs "_source_deck" (.str k))
  | v => v

/-- Tag one record of a mapping-valued sub-deck:
`info.setdefault("name", key)` then `info.setdefault("_source_deck", k)`. -/
def tagObjRecord (key k : String) : Json → Json
  | .obj fs =>
    .obj (setdefault (setdefault fs "name" (.str key)) "_source_deck"
      (.str k))
  | v => v

/-- The in-place tagging a sub-deck's value receives when processed. -/
def tagValue (k : String) : Json → Json
  | .arr l => .arr (l.map (tagArrRecord k))
  | .obj kvs => .obj (kvs.map (fun q => (q.1, tagObjRecord q.1 k q.2)))
  | v => v

/-- The entries appended while iterating a (tagged) sub-deck value. -/
def collectValue : Json → List Json
  | .arr l => l
  | .obj kvs => kvs.map (fun q => q.2)
  | _ => []

/-- `preferred_keys = ["main", "material", "sideboard"]`. -/
def preferredKeys : List String := ["main", "material", "sideboard"]

/-- Replace the value of the first binding of `k` (the visible effect of
mutating the container stored under `k` in place). -/
def replaceFirst (fs : List (String × Json)) (k : String) (v : Json) :
    List (String × Json) :=
  match fs with
  | [] => []
  | q :: rest =>
    if q.1 == k then (q.1, v) :: rest else q :: replaceFirst rest k v

/-- One iteration of the preferred-keys loop
(`if k in cards_root and cards_root[k]`): when `k` is present with a
truthy value, tag its records in place, append them to the entries and
add `k` to `seen`. -/
def processPreferred (st : List (String × Json) × List Json × List String)
    (k : String) : List (String × Json) × List Json × List String :=
  match List.lookup k st.1 with
  | some v =>
    if truthy v then
      (replaceFirst st.1 k (tagValue k v),
       st.2.1 ++ collectValue (tagValue k v),
       st.2.2 ++ [k])
    else st
  | none => st

/-- One iteration of the remaining-decks loop
(`for k, value in cards_root.items()`): skip keys in `seen` and falsy
values, otherwise tag in place and collect. -/
def processRest (seen : List String)
    (st : List (String × Json) × List Json) (q : String × Json) :
    List (String × Json) × List Json :=
  if seen.contains q.1 then (st.1 ++ [q], st.2)
  else if truthy q.2 then
    (st.1 ++ [(q.1, tagValue q.1 q.2)],
     st.2 ++ collectValue (tagValue q.1 q.2))
  else (st.1 ++ [q], st.2)

/-- Both aggregation loops over a dict-valued `cards_root`: the mutated
fields and the collected entries. -/
def aggregateDict (fs : List (String × Json)) :
    List (String × Json) × List Json :=
  let st1 := preferredKeys.foldl processPreferred (fs, [], [])
  let st2 := st1.1.foldl (processRest st1.2.2) ([], st1.2.1)
  (st2.1, st2.2)

/-- Embed a JSON value expected to be a string into a typed string field
(Python stores the raw value; see the remark on `getStrD`). -/
def asStr : Json → Except PyErr String
  | .str s => .ok s
  | _ => .error (.typeError "expected a string value")

/-- `int(e.get("quantity", e.get("qty", 1) or 1))`: the `or 1` guard
applies only to the inner `qty` default — a value stored under `quantity`
reaches `int` unguarded. -/
def resolveQty (fs : List (String × Json)) : Except PyErr Int :=
  pyInt (match jget fs "quantity" with
         | some v => v
         | none => pyOr2 (jget fs "qty") (.num 1))

/-- The body of the `for e in entries` loop: name via
`name`/`title`/`card_name` with an "Unknown" fallback, quantity via
`resolveQty`, image via the five image keys, type via `e.get("type",
"Card")`, and a `[sub-deck]` prefix on the name when `_source_deck` is
truthy and not "main".  Non-dict entries are skipped. -/
def addEntry (printer : GADeckPrinter) (e : Json) :
    Except PyErr GADeckPrinter :=
  match e with
  | .obj fs => do
    let nameJ := pyOr2 (jget fs "name")
      (pyOr2 (jget fs "title") (pyOr2 (jget fs "card_name") (.str "Unknown")))
    let name0 ← asStr nameJ
    let qty ← resolveQty fs
    let imgJ := pyOr2 (jget fs "image")
      (pyOr2 (jget fs "image_url")
        (pyOr2 (jget fs "img")
          (pyOr2 (jget fs "FaceURL") (pyOr2 (jget fs "face") (.str "")))))
    let img ← asStr imgJ
    let name ←
      match jget fs "_source_deck" with
      | some sd =>
        if truthy sd && !isMainTag sd then do
          let tag ← asStr sd
          Except.ok ("[" ++ tag ++ "] " ++ name0)
        else Except.ok name0
      | none => Except.ok name0
    let ctype ← getStrD fs "type" "Card"
    Except.ok (printer.add_card name ctype 0 0 0 "" qty img)
  | _ => .ok printer

/-- One `printer.add_card(...)` call of the printer-format branch
(`for c in data.get("cards", [])`); a non-dict element raises
(AttributeError on `.get` in Python). -/
def addPrinterFormatCard (printer : GADeckPrinter) (c : Json) :
    Except PyErr GADeckPrinter :=
  match c with
  | .obj fs => do
    let n ← getStrD fs "name" "Unknown"
    let t ← getStrD fs "type" "Card"
    let q ← getIntD fs "quantity" 1
    let img ← getStrD fs "image_url" ""
    Except.ok (printer.add_card n t 0 0 0 "" q img)
  | _ => .error (.typeError "AttributeError: no attribute get")

/-- Fold resolved entries into a fresh printer. -/
def runEntries (entries : List Json) : Except PyErr GADeckPrinter :=
  entries.foldlM addEntry defaultPrinter

/-- `build_printer_from_deck_json(data)`: the built printer paired with
the (possibly mutated) input value; the unused `preferred_deck` parameter
of the source is omitted.  Routes, as in the source:
the printer-format branch when `data["cards"]` is a non-empty list;
otherwise `cards_root` is `data["cards"]` when present and not `None`,
else `data` itself; a dict `cards_root` is aggregated sub-deck by
sub-deck (preferred keys first, then the rest in order), tagging records
in place; a list `cards_root` is the entry list directly (no tagging);
anything else yields no entries. -/
def build_printer_from_deck_json (data : Json) :
    Except PyErr (GADeckPrinter × Json) :=
  match data with
  | .obj rootFs =>
    match jget rootFs "cards" with
    | some (.arr l) =>
      if !l.isEmpty then do
        let dn ← getStrD rootFs "deck_name" defaultPrinter.deck_name
        let p ← l.foldlM addPrinterFormatCard
          { defaultPrinter with deck_name := dn }
        Except.ok (p, data)
      else (runEntries l).map (fun p => (p, data))
    | some (.obj sub) =>
      let st := aggregateDict sub
      (runEntries st.2).map
        (fun p => (p, .obj (replaceFirst rootFs "cards" (.obj st.1))))
    | some .null =>
      let st := aggregateDict rootFs
      (runEntries st.2).map (fun p => (p, .obj st.1))
    | none =>
      let st := aggregateDict rootFs
      (runEntries st.2).map (fun p => (p, .obj st.1))
    | some _ => (runEntries []).map (fun p => (p, data))
  | .arr l => (runEntries l).map (fun p => (p, data))
  | _ => (runEntries []).map (fun p => (p, data))

/-- The post-normalization stage of `generate_from_source`: the file or
network loading that yields `printer` is I/O and is received as an
argument.  An empty deck, or quantities summing to 0, returns the
`(None, None)` signal and lays out no pages; otherwise the printer, the
output path and the laid-out pages are produced. -/
def generate_from_source (printer : GADeckPrinter) (out : String) :
    Option GADeckPrinter × Option String × List (List Cell) :=
  if printer.cards = [] ∨ (printer.cards.map Card.quantity).sum = 0 then
    (none, none, [])
  else (some printer, some out, create_printable_cards_pdf printer)

/-! ### `save_to_json` / `load_from_json` -/

/-- The JSON record of one card, with the key order fixed by the dict
literal in `add_card`. -/
def cardToJson (cd : Card) : Json :=
  .obj [("name", .str cd.name), ("type", .str cd.type),
        ("cost", .num cd.cost), ("power", .num cd.power),
        ("toughness", .num cd.toughness), ("ability", .str cd.ability),
        ("quantity", .num cd.quantity), ("image_url", .str cd.image_url)]

/-- `save_to_json`: the JSON value written by
`json.dump({"deck_name": ..., "cards": self.cards})`. -/
def save_to_json (p : GADeckPrinter) : Json :=
  .obj [("deck_name", .str p.deck_name),
        ("cards", .arr (p.cards.map cardToJson))]

/-- The parameter names of `add_card`. -/
def addCardParams : List String :=
  ["name", "card_type", "cost", "power", "toughness", "ability",
   "quantity", "image_url"]

/-- `self.add_card(**card)`: keyword expansion of a JSON record into
`add_card`.  A key outside the parameter list raises TypeError
("unexpected keyword argument"), as does a missing required parameter. -/
def add_card_kwargs (p : GADeckPrinter) (c : Json) :
    Except PyErr GADeckPrinter :=
  match c with
  | .obj fs =>
    match fs.find? (fun q => !(addCardParams.contains q.1)) with
    | some q =>
      .error (.typeError
        ("add_card() got an unexpected keyword argument " ++ q.1))
    | none =>
      match jget fs "name", jget fs "card_type" with
      | some nJ, some tJ => do
        let n ← asStr nJ
        let t ← asStr tJ
        let cost ← getIntD fs "cost" 0
        let pw ← getIntD fs "power" 0
        let tg ← getIntD fs "toughness" 0
        let ab ← getStrD fs "ability" ""
        let q ← getIntD fs "quantity" 1
        let img ← getStrD fs "image_url" ""
        Except.ok (p.add_card n t cost pw tg ab q img)
      | _, _ => .error (.typeError "add_card() missing required argument")
  | _ => .error (.typeError "argument after ** must be a mapping")

/-- `load_from_json` after `json.load`: set the deck name from
`deck_name`, then `self.add_card(**card)` for each record of `cards`. -/
def load_from_json (p : GADeckPrinter) (data : Json) :
    Except PyErr GADeckPrinter :=
  match data with
  | .obj fs => do
    let dn ← getStrD fs "deck_name" p.deck_name
    let cs ←
      match jget fs "cards" with
      | some (.arr l) => Except.ok l
      | none => Except.ok []
      | some _ => Except.error (.typeError "cards is not iterable records")
    cs.foldlM add_card_kwargs { p with deck_name := dn }
  | _ => .error (.typeError "AttributeError: no attribute get")

/-! ### `transform_deck_url` -/

/-- Match a literal character sequence, returning the remainder. -/
def matchLit : List Char → List Char → Option (List Char)
  | [], cs => some cs
  | _ :: _, [] => none
  | pc :: ps, c :: cs => if pc == c then matchLit ps cs else none

/-- `u.startswith(pre)` on Python strings. -/
def pyStartsWith (u pre : String) : Bool :=
  (matchLit pre.toList u.toList).isSome

/-- Substring test at every suffix (`pat in u` on Python strings). -/
def hasSub (pat : List Char) : List Char → Bool
  | [] => (matchLit pat []).isSome
  | c :: cs => (matchLit pat (c :: cs)).isSome || hasSub pat cs

/-- `pat in s` for Python strings. -/
def containsSubstr (s pat : String) : Bool :=
  hasSub pat.toList s.toList

/-- Maximal run of decimal digits (at least one), with the remainder. -/
def digits1 (cs : List Char) : Option (List Char × List Char) :=
  let ds := cs.takeWhile Char.isDigit
  if ds.isEmpty then none else some (ds, cs.drop ds.length)

/-- Maximal run of `\w` word characters (at least one), with the
remainder (ASCII reading of Python's `\w`). -/
def word1 (cs : List Char) : Option (List Char × List Char) :=
  let ws := cs.takeWhile (fun ch => ch.isAlphanum || ch == '_')
  if ws.isEmpty then none else some (ws, cs.drop ws.length)

/-- Match `(\d+).` followed by the literal `lit`, with the greedy
backtracking the regex engine performs here: the unescaped dot consumes
either the character right after the digit run or, failing that, the
run's last digit. -/
def digitsDotLit (lit : List Char) (cs : List Char) :
    Option (List Char × List Char) :=
  let ds := cs.takeWhile Char.isDigit
  let rest := cs.drop ds.length
  if ds.isEmpty then none
  else
    let long :=
      match rest with
      | _ :: rest' => (matchLit lit rest').map (fun r => (ds, r))
      | [] => none
    match long with
    | some r => some r
    | none =>
      if ds.length ≥ 2 then
        (matchLit lit rest).map (fun r => (ds.dropLast, r))
      else none

/-- `re.search`: try the matcher at successive start positions
(leftmost match wins). -/
def searchAt (m : List Char → Option (List Char × List Char)) :
    List Char → Option (List Char × List Char)
  | [] => m []
  | c :: cs =>
    match m (c :: cs) with
    | some r => some r
    | none => searchAt m cs

/-- Pattern `/player/(\d+).html#deck_(\d+)`. -/
def matchFractal1 (cs : List Char) : Option (List Char × List Char) := do
  let r1 ← matchLit "/player/".toList cs
  let (g1, r2) ← digitsDotLit "html#deck_".toList r1
  let (g2, _) ← digits1 r2
  pure (g1, g2)

/-- Pattern `#deck_(\d+)_(\d+)`. -/
def matchFractal2 (cs : List Char) : Option (List Char × List Char) := do
  let r1 ← matchLit "#deck_".toList cs
  let (g1, r2) ← digits1 r1
  let r3 ← matchLit "_".toList r2
  let (g2, _) ← digits1 r3
  pure (g1, g2)

/-- Patterns `/\w+/(\d+).html#deck_(\d+)` with an optional literal suffix
(`_topcut` for the third table row, empty for the fourth). -/
def matchFractal34 (suffix : List Char) (cs : List Char) :
    Option (List Char × List Char) := do
  let r0 ← matchLit "/".toList cs
  let (_, r1) ← word1 r0
  let r2 ← matchLit "/".toList r1
  let (g1, r3) ← digitsDotLit "html#deck_".toList r2
  let (g2, r4) ← digits1 r3
  let _ ← matchLit suffix r4
  pure (g1, g2)

/-- `int(...)` on a captured digit group (drops leading zeros, as the
f-string interpolation of the parsed int does). -/
def digitsToNat (ds : List Char) : Nat :=
  ds.foldl (fun n c => 10 * n + (c.toNat - 48)) 0

/-- `f"https://fractalofin.site/tts/event_{event_id}/{player_id}{suffix}.json"`. -/
def mkFractalUrl (eventG playerG : List Char) (suffix : String) : String :=
  "https://fractalofin.site/tts/event_" ++ toString (digitsToNat eventG)
    ++ "/" ++ toString (digitsToNat playerG) ++ suffix ++ ".json"

/-- The `fractalofin.site` branch: the four patterns tried in order; the
first match builds the JSON URL (the first pattern's groups are
(player, event), the others' are (event, player)); with no match the URL
is kept as it is. -/
def fractalRewrite (u : String) : String :=
  let cs := u.toList
  match searchAt matchFractal1 cs with
  | some (a, b) => mkFractalUrl b a ""
  | none =>
    match searchAt matchFractal2 cs with
    | some (a, b) => mkFractalUrl a b ""
    | none =>
      match searchAt (matchFractal34 "_topcut".toList) cs with
      | some (a, b) => mkFractalUrl a b "_topcut"
      | none =>
        match searchAt (matchFractal34 []) cs with
        | some (a, b) => mkFractalUrl a b ""
        | none => u

/-- `u.replace("/deck/", "/json/")` for dungeongui.de. -/
def ruleDungeonGuide (u : String) : String := u.replace "/deck/" "/json/"

/-- The silvie.org / silv.ie branch: append `format=json` when absent. -/
def ruleSilvie (u : String) : String :=
  if containsSubstr u "format=json" then u
  else if containsSubstr u "?" then u ++ "&format=json"
  else u ++ "?format=json"

/-- `u.replace("/decks/", "/api/")` for shoutatyourdecks.com. -/
def ruleShout (u : String) : String := u.replace "/decks/" "/api/"

/-- The silvie.gg branch: two sequential replaces. -/
def ruleSilvieGG (u : String) : String :=
  (u.replace "silvie.gg/decklist?deck=" "silvie.gg/api/tts/export").replace
    "silvie.gg/decklist/" "silvie.gg/api/tts/export"

/-- The jsonblob.com branch. -/
def ruleJsonBlob (u : String) : String :=
  u.replace "jsonblob.com/" "jsonblob.com/api/jsonBlob/"

/-- The tcgarchitect.com branch: two sequential replaces. -/
def ruleTcgArchitect (u : String) : String :=
  (u.replace "tcgarchitect.com/grand-archive/decks/"
      "api.tcgarchitect.com/tts/grand-archive/deck/").replace
    "tcgarchitect.com/grand-archive/tournaments/decklists/"
    "api.tcgarchitect.com/tts/grand-archive/tournament-deck/"

/-- `transform_deck_url`: prefix `https://` when the URL does not start
with "http", then run the if/elif chain of host-specific rewrites. -/
def transform_deck_url (deck_url : String) : String :=
  let u := if pyStartsWith deck_url "http" then deck_url
           else "https://" ++ deck_url
  if containsSubstr u "dungeongui.de" then ruleDungeonGuide u
  else if containsSubstr u "silvie.org" || containsSubstr u "silv.ie" then
    ruleSilvie u
  else if containsSubstr u "shoutatyourdecks.com" then ruleShout u
  else if containsSubstr u "silvie.gg" then ruleSilvieGG u
  else if containsSubstr u "jsonblob.com" then ruleJsonBlob u
  else if containsSubstr u "tcgarchitect.com" then ruleTcgArchitect u
  else if containsSubstr u "fractalofin.site" then fractalRewrite u
  else u

/-- Modelled from the spec and the amended claim C9: the fixed rewrite
table, each row a host-substring predicate with its rewrite. -/
def urlRuleTable : List ((String → Bool) × (String → String)) :=
  [(fun u => containsSubstr u "dungeongui.de", ruleDungeonGuide),
   (fun u => containsSubstr u "silvie.org" || containsSubstr u "silv.ie",
    ruleSilvie),
   (fun u => containsSubstr u "shoutatyourdecks.com", ruleShout),
   (fun u => containsSubstr u "silvie.gg", ruleSilvieGG),
   (fun u => containsSubstr u "jsonblob.com", ruleJsonBlob),
   (fun u => containsSubstr u "tcgarchitect.com", ruleTcgArchitect),
   (fun u => containsSubstr u "fractalofin.site", fractalRewrite)]

/-- Modelled from the spec and the amended claim C9: apply at most one
rule — the first of the table whose host substring matches — and return
the URL unchanged otherwise, after prefixing `https://` exactly when the
input does not start with "http". -/
def transform_deck_url_table (deck_url : String) : String :=
  let u := if pyStartsWith deck_url "http" then deck_url
           else "https://" ++ deck_url
  match urlRuleTable.find? (fun rule => rule.1 u) with
  | some rule => rule.2 u
  | none => u

/-! ### Spec-side definitions for the corrected claims C5 and C10 -/

/-- Modelled from the amended claim C5: quantity resolution tries the key
`quantity` then `qty`, defaulting to 1; a falsy (null or zero) value
under `qty` still yields 1, but a value stored under `quantity` reaches
the integer coercion as it is — an explicit 0 gives quantity 0 and an
explicit null raises. -/
def resolveQtyAmendedSpec (fs : List (String × Json)) : Except PyErr Int :=
  match jget fs "quantity" with
  | some v => pyInt v
  | none =>
    match jget fs "qty" with
    | some v => if truthy v then pyInt v else .ok 1
    | none => .ok 1

/-- Insert a binding at the end only when the key is absent (the frame
effect claimed by C10: keys inserted, never overwritten). -/
def insertIfAbsent (fs : List (String × Json)) (k : String) (v : Json) :
    List (String × Json) :=
  if fs.any (fun q => q.1 == k) then fs else fs ++ [(k, v)]

/-- Modelled from claim C10: the tagging a sub-deck value receives — each
record dictionary of a mapping-valued sub-deck gains a `name` key (its
mapping key) and a `_source_deck` key (the sub-deck name) when absent;
records of list-valued sub-decks gain `_source_deck` when absent;
nothing else is added and no existing key's value is overwritten. -/
def c10Tag (k : String) : Json → Json
  | .arr l => .arr (l.map (fun r =>
      match r with
      | .obj fs => .obj (insertIfAbsent fs "_source_deck" (.str k))
      | v => v))
  | .obj kvs => .obj (kvs.map (fun q =>
      match q.2 with
      | .obj fs =>
        (q.1, .obj (insertIfAbsent (insertIfAbsent fs "name" (.str q.1))
          "_source_deck" (.str k)))
      | v => (q.1, v)))
  | v => v

/-! ### Concrete input shapes used by the claims about the aggregate
normalizer -/

/-- A plain card record `{"name": n, "quantity": q}`. -/
def mkSimpleRec (p : String × Int) : Json :=
  .obj [("name", .str p.1), ("quantity", .num p.2)]

/-- `mkSimpleRec` after the in-place tagging with sub-deck `k`. -/
def taggedRecJson (k : String) (p : String × Int) : Json :=
  .obj [("name", .str p.1), ("quantity", .num p.2),
        ("_source_deck", .str k)]

/-- An aggregate decklist with a `main` sub-deck and one further sub-deck
named `sub`, both list-valued. -/
def mkAggregate (sub : String) (ms ss : List (String × Int)) : Json :=
  .obj [("cards",
    .obj [("main", .arr (ms.map mkSimpleRec)),
          (sub, .arr (ss.map mkSimpleRec))])]

/-- The entry a `main` record resolves to. -/
def mainEntryCard (p : String × Int) : Card :=
  { name := p.1, type := "Card", cost := 0, power := 0, toughness := 0,
    ability := "", quantity := p.2, image_url := "" }

/-- The entry a record of sub-deck `sub ≠ "main"` resolves to: the name is
prefixed with the bracketed sub-deck tag. -/
def taggedEntryCard (sub : String) (p : String × Int) : Card :=
  { name := "[" ++ sub ++ "] " ++ p.1, type := "Card", cost := 0,
    power := 0, toughness := 0, ability := "", quantity := p.2,
    image_url := "" }

/-! ### Closed-form views of the aggregation loops (proof infrastructure) -/

/-- Whether `k in cards_root and cards_root[k]` holds. -/
def hasTruthy (fs : List (String × Json)) (k : String) : Bool :=
  match List.lookup k fs with
  | some v => truthy v
  | none => false

/-- Entries one preferred key contributes. -/
def colPrefE (fs : List (String × Json)) (k : String) : List Json :=
  match List.lookup k fs with
  | some v => if truthy v then collectValue (tagValue k v) else []
  | none => []

/-- The field update one preferred-key step performs. -/
def tagPrefFields (k : String) (fs : List (String × Json)) :
    List (String × Json) :=
  match List.lookup k fs with
  | some v => if truthy v then replaceFirst fs k (tagValue k v) else fs
  | none => fs

/-- The fields after the whole preferred-keys loop. -/
def loop1Fields : List String → List (String × Json) → List (String × Json)
  | [], fs => fs
  | k :: ks, fs => loop1Fields ks (tagPrefFields k fs)

/-- The field update the remaining-decks loop performs at one binding. -/
def gRest (seen : List String) (q : String × Json) : String × Json :=
  if seen.contains q.1 then q
  else if truthy q.2 then (q.1, tagValue q.1 q.2) else q

/-- Value-level form of `gRest`. -/
def gvRest (seen : List String) (k : String) (v : Json) : Json :=
  if seen.contains k then v
  else if truthy v then tagValue k v else v

/-- The entries the remaining-decks loop collects at one binding. -/
def colRest (seen : List String) (q : String × Json) : List Json :=
  if seen.contains q.1 then []
  else if truthy q.2 then collectValue (tagValue q.1 q.2) else []

/-! ### Concrete witness inputs used by the claims -/

/-- Concrete deck for the C1 witness: one card with 9 copies on the
default 3×3 grid. -/
def wDeckC1 : GADeckPrinter :=
  { deck_name := "W1", cards_per_row := 3, cards_per_column := 3,
    cards := [{ name := "A", type := "Card", cost := 0, power := 0,
                toughness := 0, ability := "", quantity := 9,
                image_url := "" }] }

/-- Concrete deck for the C2 witness: quantities 3 and 2 on a 2×2 grid,
spanning two pages. -/
def wDeckC2 : GADeckPrinter :=
  { deck_name := "W2", cards_per_row := 2, cards_per_column := 2,
    cards := [{ name := "A", type := "Card", cost := 0, power := 0,
                toughness := 0, ability := "", quantity := 3,
                image_url := "" },
              { name := "B", type := "Card", cost := 0, power := 0,
                toughness := 0, ability := "", quantity := 2,
                image_url := "" }] }

/-- Deck container for the C3 witness: three contained records, two of them
sharing the nickname "A". -/
def wDeckObjC3 : TTSDeckObject :=
  { Nickname := some "TTS Deck",
    CustomDeck := [("1", { FaceURL := some "http://img/a.png" })],
    ContainedObjects :=
      [{ Nickname := some "A", Description := some "d", CardID := some 100 },
       { Nickname := some "A", Description := none, CardID := some 100 },
       { Nickname := some "B", Description := none, CardID := some 200 }] }

/-- TTS save file for the C3 witness. -/
def wSaveC3 : TTSSaveFile := { ObjectStates := [wDeckObjC3] }

/-- Printer with one zero-quantity card for the C7 witness. -/
def wPrinterC7 : GADeckPrinter :=
  { deck_name := "GA_Deck", cards_per_row := 3, cards_per_column := 3,
    cards := [{ name := "A", type := "Card", cost := 0, power := 0,
                toughness := 0, ability := "", quantity := 0,
                image_url := "" }] }

/-- Deck exhibiting the C6 round-trip failure. -/
def wPrinterC6 : GADeckPrinter :=
  { deck_name := "Sample GA Deck", cards_per_row := 3,
    cards_per_column := 3,
    cards := [{ name := "Fire Elemental", type := "Unit", cost := 3,
                power := 3, toughness := 2,
                ability := "When Fire Elemental enters, deal 1 damage.",
                quantity := 2, image_url := "" }] }

/-- Scenario-2 aggregate input for the C8 witness. -/
def w8d : Json :=
  .obj [("cards",
    .obj [("main", .arr [.obj [("name", .str "A"), ("quantity", .num 2)]]),
          ("sideboard",
            .arr [.obj [("name", .str "A"), ("quantity", .num 1)]])])]

/-- The value `w8d` is mutated into by the first normalization run. -/
def w8d' : Json :=
  .obj [("cards",
    .obj [("main", .arr [.obj [("name", .str "A"), ("quantity", .num 2),
            ("_source_deck", .str "main")]]),
          ("sideboard",
            .arr [.obj [("name", .str "A"), ("quantity", .num 1),
              ("_source_deck", .str "sideboard")]])])]

/-- The printer both runs produce on `w8d`. -/
def w8p : GADeckPrinter :=
  { deck_name := "GA_Deck", cards_per_row := 3, cards_per_column := 3,
    cards := [
      { name := "A", type := "Card", cost := 0, power := 0, toughness := 0,
        ability := "", quantity := 2, image_url := "" },
      { name := "[sideboard] A", type := "Card", cost := 0, power := 0,
        toughness := 0, ability := "", quantity := 1, image_url := "" }] }

/-- Sub-deck mapping for the C10 witness: a list-valued `main` and a
mapping-valued `extra`. -/
def w10Sub : List (String × Json) :=
  [("main", .arr [.obj [("name", .str "A")]]),
   ("extra", .obj [("B", .obj [])])]

/-- Root object of the C10 witness. -/
def w10RootFs : List (String × Json) := [("cards", .obj w10Sub)]

/-- Printer the C10 witness input normalizes to. -/
def w10P : GADeckPrinter :=
  { deck_name := "GA_Deck", cards_per_row := 3, cards_per_column := 3,
    cards := [
      { name := "A", type := "Card", cost := 0, power := 0, toughness := 0,
        ability := "", quantity := 1, image_url := "" },
      { name := "[extra] B", type := "Card", cost := 0, power := 0,
        toughness := 0, ability := "", quantity := 1, image_url := "" }] }

/-- Mutated value the C10 witness input comes back as. -/
def w10D' : Json :=
  .obj [("cards",
    .obj [("main", .arr [.obj [("name", .str "A"),
            ("_source_deck", .str "main")]]),
          ("extra", .obj [("B", .obj [("name", .str "B"),
            ("_source_deck", .str "extra")])])])]

/-! ### Lemmas: the drawing loop produces chunked pages -/

theorem flatCopies_cons (cd : Card) (l : List Card) :
    flatCopies (cd :: l) = List.replicate cd.quantity.toNat cd ++ flatCopies l := by
  simp [flatCopies]

theorem foldl_placeCard_eq (rows cols : Nat) (cards : List Card)
    (st : LayoutState) :
    cards.foldl (placeCard rows cols) st =
      (flatCopies cards).foldl (placeCopy rows cols) st := by
  induction cards generalizing st with
  | nil => simp [flatCopies]
  | cons cd l ih =>
      rw [List.foldl_cons, flatCopies_cons, List.foldl_append, placeCard, ih]

theorem foldl_placeCopy_pages (rows cols : Nat) (l : List Card)
    (P : List (List Cell)) (cur : List Cell) (i : Nat) :
    l.foldl (placeCopy rows cols) ⟨P, cur, i⟩ =
      ⟨P ++ (l.foldl (placeCopy rows cols) ⟨[], cur, i⟩).pages,
       (l.foldl (placeCopy rows cols) ⟨[], cur, i⟩).cur,
       (l.foldl (placeCopy rows cols) ⟨[], cur, i⟩).idx⟩ := by
  induction l generalizing P cur i with
  | nil => simp
  | cons cd l ih =>
      simp only [List.foldl_cons, placeCopy]
      by_cases h : i ≥ rows * cols
      · simp only [if_pos h, List.nil_append, Nat.zero_add]
        rw [ih (P ++ [cur]) [cellAt rows cols 0 cd] 1,
            ih [cur] [cellAt rows cols 0 cd] 1]
        simp
      · simp only [if_neg h]
        exact ih P (cur ++ [cellAt rows cols i cd]) (i + 1)

theorem foldl_placeCopy_fill (rows cols : Nat) (l : List Card)
    (P : List (List Cell)) (cur : List Cell) (i : Nat)
    (h : i + l.length ≤ rows * cols) :
    l.foldl (placeCopy rows cols) ⟨P, cur, i⟩ =
      ⟨P, cur ++ cellsFrom rows cols i l, i + l.length⟩ := by
  induction l generalizing cur i with
  | nil => simp [cellsFrom]
  | cons cd l ih =>
      have hi : ¬ (i ≥ rows * cols) := by
        simp only [List.length_cons] at h
        omega
      simp only [List.foldl_cons, placeCopy, if_neg hi]
      rw [ih (cur ++ [cellAt rows cols i cd]) (i + 1)
          (by simp only [List.length_cons] at h; omega)]
      simp only [cellsFrom, List.length_cons, LayoutState.mk.injEq,
        List.append_assoc, List.singleton_append, true_and]
      omega

theorem foldl_placeCopy_flush (rows cols : Nat) (hcap : 0 < rows * cols)
    (cd : Card) (l : List Card) (P : List (List Cell)) (cur : List Cell) :
    (cd :: l).foldl (placeCopy rows cols) ⟨P, cur, rows * cols⟩ =
      (cd :: l).foldl (placeCopy rows cols) ⟨P ++ [cur], [], 0⟩ := by
  simp only [List.foldl_cons, placeCopy]
  rw [if_pos (le_refl _), if_neg (by omega)]

theorem finalizePages_append (P Q : List (List Cell)) (cur : List Cell)
    (i : Nat) :
    finalizePages ⟨P ++ Q, cur, i⟩ = P ++ finalizePages ⟨Q, cur, i⟩ := by
  unfold finalizePages
  by_cases h : cur.isEmpty <;> simp [h]

theorem cellsFrom_length (rows cols n : Nat) (l : List Card) :
    (cellsFrom rows cols n l).length = l.length := by
  induction l generalizing n with
  | nil => rfl
  | cons cd l ih => simp [cellsFrom, ih]

theorem cellsFrom_ne_nil (rows cols n : Nat) (l : List Card) (h : l ≠ []) :
    cellsFrom rows cols n l ≠ [] := by
  cases l with
  | nil => exact absurd rfl h
  | cons cd l => simp [cellsFrom]

theorem layoutState_eta (s : LayoutState) :
    (⟨s.pages, s.cur, s.idx⟩ : LayoutState) = s := rfl

theorem layout_eq_pagesSpec (rows cols : Nat) (hr : 0 < rows)
    (hc : 0 < cols) (l : List Card) :
    finalizePages (l.foldl (placeCopy rows cols) ⟨[], [], 0⟩) =
      pagesSpec rows cols l := by
  have hcap : 0 < rows * cols := Nat.mul_pos hr hc
  by_cases hnil : l = []
  · subst hnil
    rw [pagesSpec, chunkPages]
    simp [finalizePages]
  · by_cases hlen : l.length ≤ rows * cols
    · rw [foldl_placeCopy_fill rows cols l [] [] 0 (by omega)]
      rw [pagesSpec, chunkPages, dif_neg (by simp [hnil]; omega)]
      rw [List.drop_eq_nil_of_le hlen, List.take_of_length_le hlen]
      rw [chunkPages]
      simp only [List.map_cons, List.map_nil, dif_pos (Or.inr rfl)]
      rw [finalizePages]
      simp only [List.nil_append, List.isEmpty_iff]
      rw [if_neg (cellsFrom_ne_nil rows cols 0 l hnil)]
      simp
    · have hsplit := List.take_append_drop (rows * cols) l
      have hlt : rows * cols < l.length := by omega
      have htk : (l.take (rows * cols)).length = rows * cols := by
        rw [List.length_take]
        omega
      conv_lhs => rw [← hsplit]
      rw [List.foldl_append,
          foldl_placeCopy_fill rows cols _ [] [] 0 (by rw [htk]; omega)]
      simp only [List.nil_append, Nat.zero_add]
      rw [htk]
      cases hdrop : l.drop (rows * cols) with
      | nil =>
          have := List.length_drop (rows * cols) l
          rw [hdrop] at this
          simp at this
          omega
      | cons cd rest =>
          rw [foldl_placeCopy_flush rows cols hcap cd rest [] _]
          simp only [List.nil_append]
          rw [foldl_placeCopy_pages rows cols (cd :: rest)
              [cellsFrom rows cols 0 (l.take (rows * cols))] [] 0]
          rw [finalizePages_append, layoutState_eta]
          have hrec := layout_eq_pagesSpec rows cols hr hc (l.drop (rows * cols))
          rw [hdrop] at hrec
          have hR : pagesSpec rows cols l =
              cellsFrom rows cols 0 (l.take (rows * cols)) ::
                pagesSpec rows cols (cd :: rest) := by
            rw [pagesSpec, chunkPages, dif_neg (by simp [hnil]; omega), hdrop]
            simp [pagesSpec]
          rw [hrec, hR]
          simp
termination_by l.length
decreasing_by
  simp only [List.length_drop]
  have : 0 < l.length := List.length_pos.mpr hnil
  omega

theorem chunkPages_nil (cap : Nat) : chunkPages cap [] = [] := by
  rw [chunkPages]
  simp

theorem chunkPages_length (cap : Nat) (hcap : 0 < cap) (l : List Card) :
    (chunkPages cap l).length = (l.length + cap - 1) / cap := by
  by_cases hnil : l = []
  · subst hnil
    rw [chunkPages_nil]
    simp [Nat.div_eq_of_lt (by omega : cap - 1 < cap)]
  · have hpos : 0 < l.length := List.length_pos.mpr hnil
    rw [chunkPages, dif_neg (by simp [hnil]; omega)]
    by_cases hlen : l.length ≤ cap
    · rw [List.drop_eq_nil_of_le hlen, chunkPages_nil]
      have he : l.length + cap - 1 = (l.length - 1) + cap := by omega
      rw [he, Nat.add_div_right _ hcap,
          Nat.div_eq_of_lt (by omega : l.length - 1 < cap)]
      simp
    · rw [List.length_cons, chunkPages_length cap hcap (l.drop cap)]
      rw [List.length_drop]
      have e1 : l.length - cap + cap - 1 = l.length - 1 := by omega
      have e2 : l.length + cap - 1 = (l.length - 1) + cap := by omega
      rw [e1, e2, Nat.add_div_right _ hcap]
termination_by l.length
decreasing_by
  simp only [List.length_drop]
  omega

theorem chunkPages_flatten (cap : Nat) (hcap : 0 < cap) (l : List Card) :
    (chunkPages cap l).flatten = l := by
  by_cases hnil : l = []
  · subst hnil
    rw [chunkPages_nil]
    rfl
  · rw [chunkPages, dif_neg (by simp [hnil]; omega)]
    rw [List.flatten_cons, chunkPages_flatten cap hcap (l.drop cap),
        List.take_append_drop]
termination_by l.length
decreasing_by
  simp only [List.length_drop]
  have : 0 < l.length := List.length_pos.mpr hnil
  omega

theorem chunkPages_mem_length (cap : Nat) (hcap : 0 < cap) (l : List Card)
    (pg : List Card) (h : pg ∈ chunkPages cap l) :
    0 < pg.length ∧ pg.length ≤ cap := by
  by_cases hnil : l = []
  · subst hnil
    rw [chunkPages_nil] at h
    exact absurd h (List.not_mem_nil pg)
  · rw [chunkPages, dif_neg (by simp [hnil]; omega)] at h
    rcases List.mem_cons.mp h with he | hm
    · subst he
      have hpos : 0 < l.length := List.length_pos.mpr hnil
      rw [List.length_take]
      omega
    · exact chunkPages_mem_length cap hcap (l.drop cap) pg hm
termination_by l.length
decreasing_by
  simp only [List.length_drop]
  have : 0 < l.length := List.length_pos.mpr hnil
  omega

theorem chunkPages_ne_nil_iff (cap : Nat) (hcap : 0 < cap) (l : List Card) :
    chunkPages cap l ≠ [] ↔ l ≠ [] := by
  constructor
  · intro h hl
    subst hl
    exact h (chunkPages_nil cap)
  · intro hl
    rw [chunkPages, dif_neg (by simp [hl]; omega)]
    simp

theorem chunkPages_getq_full (cap : Nat) (hcap : 0 < cap) (l : List Card)
    (i : Nat) (h : i + 1 < (chunkPages cap l).length) :
    ∃ pg, (chunkPages cap l)[i]? = some pg ∧ pg.length = cap := by
  by_cases hnil : l = []
  · subst hnil
    rw [chunkPages_nil] at h
    simp at h
  · have hun : chunkPages cap l = l.take cap :: chunkPages cap (l.drop cap) := by
      rw [chunkPages, dif_neg (by simp [hnil]; omega)]
    cases i with
    | zero =>
        have hrest : chunkPages cap (l.drop cap) ≠ [] := by
          intro hr
          rw [hun, hr] at h
          simp at h
        have hdr : l.drop cap ≠ [] :=
          ((chunkPages_ne_nil_iff cap hcap (l.drop cap)).mp hrest)
        have hlen : cap < l.length := by
          have := List.length_pos.mpr hdr
          rw [List.length_drop] at this
          omega
        refine ⟨l.take cap, ?_, ?_⟩
        · rw [hun, List.getElem?_cons_zero]
        · rw [List.length_take]
          omega
    | succ j =>
        have h' : j + 1 < (chunkPages cap (l.drop cap)).length := by
          rw [hun] at h
          simpa using h
        obtain ⟨pg, hpg, hlen⟩ := chunkPages_getq_full cap hcap (l.drop cap) j h'
        refine ⟨pg, ?_, hlen⟩
        rw [hun, List.getElem?_cons_succ]
        exact hpg
termination_by l.length
decreasing_by
  simp only [List.length_drop]
  have : 0 < l.length := List.length_pos.mpr hnil
  omega

theorem cellsFrom_map_card (rows cols n : Nat) (l : List Card) :
    (cellsFrom rows cols n l).map Cell.card = l := by
  induction l generalizing n with
  | nil => rfl
  | cons cd l ih => simp [cellsFrom, cellAt, ih]

theorem cellsFrom_get (rows cols : Nat) (l : List Card) (n j : Nat)
    (hj : j < (cellsFrom rows cols n l).length) :
    (cellsFrom rows cols n l).get ⟨j, hj⟩ =
      cellAt rows cols (n + j)
        (l.get ⟨j, by rw [← cellsFrom_length rows cols n l]; exact hj⟩) := by
  induction l generalizing n j with
  | nil => simp [cellsFrom] at hj
  | cons cd l ih =>
      cases j with
      | zero => simp [cellsFrom]
      | succ j =>
          simp only [cellsFrom, List.get]
          rw [ih (n + 1) j]
          congr 1
          omega

theorem flatCopies_length (cards : List Card) :
    (flatCopies cards).length =
      (cards.map (fun cd => cd.quantity.toNat)).sum := by
  simp [flatCopies, List.length_flatten, Function.comp_def,
    List.length_replicate]

theorem create_printable_cards_pdf_eq (p : GADeckPrinter)
    (hr : 0 < p.cards_per_row) (hc : 0 < p.cards_per_column) :
    create_printable_cards_pdf p =
      pagesSpec p.cards_per_row p.cards_per_column (flatCopies p.cards) := by
  rw [create_printable_cards_pdf, foldl_placeCard_eq,
      layout_eq_pagesSpec _ _ hr hc]

theorem sum_quantity_toNat (cards : List Card)
    (h : ∀ cd ∈ cards, 0 ≤ cd.quantity) :
    (cards.map (fun cd => cd.quantity)).sum =
      ((cards.map (fun cd => cd.quantity.toNat)).sum : Int) := by
  induction cards with
  | nil => simp
  | cons cd l ih =>
      simp only [List.map_cons, List.sum_cons, Nat.cast_add]
      rw [ih (fun c hc => h c (List.mem_cons_of_mem _ hc)),
          Int.toNat_of_nonneg (h cd (List.mem_cons_self _ _))]

theorem pagesSpec_map_length (rows cols : Nat) (l : List Card) :
    (pagesSpec rows cols l).map List.length =
      (chunkPages (rows * cols) l).map List.length := by
  rw [pagesSpec, List.map_map]
  exact List.map_congr_left (fun pg _ => cellsFrom_length rows cols 0 pg)

/-- Claim C1: for a deck with total quantity `Q` and an `r × c` grid,
`create_printable_cards_pdf` produces exactly `⌈Q / (r*c)⌉` pages, the
number of occupied cells over all pages is `Q`, and a total exactly equal
to the grid capacity (e.g. 9 copies on a 3×3 grid) fills exactly 1 page. -/
theorem C1_page_count_and_cells (p : GADeckPrinter)
    (hr : 0 < p.cards_per_row) (hc : 0 < p.cards_per_column)
    (hq : ∀ cd ∈ p.cards, 0 ≤ cd.quantity) :
    ((create_printable_cards_pdf p).length =
        ((p.cards.map (fun cd => cd.quantity.toNat)).sum
            + p.cards_per_row * p.cards_per_column - 1) /
          (p.cards_per_row * p.cards_per_column))
    ∧ (((create_printable_cards_pdf p).map List.length).sum =
        (p.cards.map (fun cd => cd.quantity.toNat)).sum)
    ∧ ((p.cards.map (fun cd => cd.quantity)).sum =
        ((p.cards.map (fun cd => cd.quantity.toNat)).sum : Int))
    ∧ ((p.cards.map (fun cd => cd.quantity.toNat)).sum =
          p.cards_per_row * p.cards_per_column →
        (create_printable_cards_pdf p).length = 1) := by
  have hcap : 0 < p.cards_per_row * p.cards_per_column := Nat.mul_pos hr hc
  have hQ : (flatCopies p.cards).length =
      (p.cards.map (fun cd => cd.quantity.toNat)).sum :=
    flatCopies_length p.cards
  have hlen : (create_printable_cards_pdf p).length =
      ((p.cards.map (fun cd => cd.quantity.toNat)).sum
          + p.cards_per_row * p.cards_per_column - 1) /
        (p.cards_per_row * p.cards_per_column) := by
    rw [create_printable_cards_pdf_eq p hr hc, pagesSpec, List.length_map,
        chunkPages_length _ hcap, hQ]
  refine ⟨hlen, ?_, sum_quantity_toNat p.cards hq, ?_⟩
  · rw [create_printable_cards_pdf_eq p hr hc, pagesSpec_map_length,
        ← List.length_flatten, chunkPages_flatten _ hcap, hQ]
  · intro hdiv
    rw [hlen, hdiv]
    have he : p.cards_per_row * p.cards_per_column
        + p.cards_per_row * p.cards_per_column - 1 =
        (p.cards_per_row * p.cards_per_column - 1)
          + p.cards_per_row * p.cards_per_column := by omega
    rw [he, Nat.add_div_right _ hcap, Nat.div_eq_of_lt (by omega)]


theorem C1_page_count_and_cells_witness :
    ((create_printable_cards_pdf wDeckC1).length =
        ((wDeckC1.cards.map (fun cd => cd.quantity.toNat)).sum
            + wDeckC1.cards_per_row * wDeckC1.cards_per_column - 1) /
          (wDeckC1.cards_per_row * wDeckC1.cards_per_column))
    ∧ (((create_printable_cards_pdf wDeckC1).map List.length).sum =
        (wDeckC1.cards.map (fun cd => cd.quantity.toNat)).sum)
    ∧ ((wDeckC1.cards.map (fun cd => cd.quantity)).sum =
        ((wDeckC1.cards.map (fun cd => cd.quantity.toNat)).sum : Int))
    ∧ ((wDeckC1.cards.map (fun cd => cd.quantity.toNat)).sum =
          wDeckC1.cards_per_row * wDeckC1.cards_per_column →
        (create_printable_cards_pdf wDeckC1).length = 1) :=
  C1_page_count_and_cells wDeckC1 (by decide) (by decide) (by decide)

/-- Claim C2: the drawing loop fills cells in row-major order, starting a
new page exactly when the per-page index reaches
`cards_per_row * cards_per_column` (so every page is non-empty, holds at
most the grid capacity, and every page but the last is exactly full); cell
width is `(pageWidth - 2*margin) / cards_per_row`, cell height is
`(pageHeight - 2*margin) / cards_per_column`, and the `j`-th cell of a page
sits at `x = margin + (j % cards_per_row) * cellWidth`,
`y = pageHeight - margin - (j / cards_per_row + 1) * cellHeight`; reading
the cells page by page in order recovers each card's copies consecutively
in deck order. -/
theorem C2_row_major_layout (p : GADeckPrinter)
    (hr : 0 < p.cards_per_row) (hc : 0 < p.cards_per_column) :
    (∀ pg ∈ create_printable_cards_pdf p,
        0 < pg.length ∧ pg.length ≤ p.cards_per_row * p.cards_per_column)
    ∧ (∀ i, i + 1 < (create_printable_cards_pdf p).length →
        ∃ pg, (create_printable_cards_pdf p)[i]? = some pg ∧
          pg.length = p.cards_per_row * p.cards_per_column)
    ∧ (∀ pg ∈ create_printable_cards_pdf p, ∀ j, ∀ hj : j < pg.length,
        (pg.get ⟨j, hj⟩).x = pdfMargin + ((j % p.cards_per_row : Nat) : ℚ) *
            ((pageWidth - 2 * pdfMargin) / (p.cards_per_row : ℚ))
        ∧ (pg.get ⟨j, hj⟩).y = pageHeight - pdfMargin -
            (((j / p.cards_per_row : Nat) : ℚ) + 1) *
              ((pageHeight - 2 * pdfMargin) / (p.cards_per_column : ℚ))
        ∧ (pg.get ⟨j, hj⟩).width =
            (pageWidth - 2 * pdfMargin) / (p.cards_per_row : ℚ)
        ∧ (pg.get ⟨j, hj⟩).height =
            (pageHeight - 2 * pdfMargin) / (p.cards_per_column : ℚ))
    ∧ ((create_printable_cards_pdf p).map (fun pg => pg.map Cell.card)).flatten
        = flatCopies p.cards := by
  have hcap : 0 < p.cards_per_row * p.cards_per_column := Nat.mul_pos hr hc
  have heq := create_printable_cards_pdf_eq p hr hc
  refine ⟨?_, ?_, ?_, ?_⟩
  · intro pg hpg
    rw [heq, pagesSpec] at hpg
    obtain ⟨pg0, hpg0, hmap⟩ := List.mem_map.mp hpg
    have := chunkPages_mem_length _ hcap _ pg0 hpg0
    rw [← hmap, cellsFrom_length]
    exact this
  · intro i hi
    rw [heq, pagesSpec] at hi ⊢
    rw [List.length_map] at hi
    obtain ⟨pg0, hpg0, hlen0⟩ :=
      chunkPages_getq_full _ hcap (flatCopies p.cards) i hi
    refine ⟨cellsFrom p.cards_per_row p.cards_per_column 0 pg0, ?_, ?_⟩
    · rw [List.getElem?_map, hpg0]
      rfl
    · rw [cellsFrom_length]
      exact hlen0
  · intro pg hpg j hj
    rw [heq, pagesSpec] at hpg
    obtain ⟨pg0, hpg0, hmap⟩ := List.mem_map.mp hpg
    subst hmap
    rw [cellsFrom_get]
    simp [cellAt]
  · rw [heq, pagesSpec, List.map_map]
    have hm : ((chunkPages (p.cards_per_row * p.cards_per_column)
          (flatCopies p.cards)).map
        ((fun pg => pg.map Cell.card) ∘
          cellsFrom p.cards_per_row p.cards_per_column 0)) =
        (chunkPages (p.cards_per_row * p.cards_per_column)
          (flatCopies p.cards)).map id := by
      refine List.map_congr_left (fun pg0 _ => ?_)
      simp [cellsFrom_map_card]
    rw [hm, List.map_id, chunkPages_flatten _ hcap]


theorem C2_row_major_layout_witness :
    (∀ pg ∈ create_printable_cards_pdf wDeckC2,
        0 < pg.length ∧
          pg.length ≤ wDeckC2.cards_per_row * wDeckC2.cards_per_column)
    ∧ (∀ i, i + 1 < (create_printable_cards_pdf wDeckC2).length →
        ∃ pg, (create_printable_cards_pdf wDeckC2)[i]? = some pg ∧
          pg.length = wDeckC2.cards_per_row * wDeckC2.cards_per_column)
    ∧ (∀ pg ∈ create_printable_cards_pdf wDeckC2, ∀ j, ∀ hj : j < pg.length,
        (pg.get ⟨j, hj⟩).x =
            pdfMargin + ((j % wDeckC2.cards_per_row : Nat) : ℚ) *
            ((pageWidth - 2 * pdfMargin) / (wDeckC2.cards_per_row : ℚ))
        ∧ (pg.get ⟨j, hj⟩).y = pageHeight - pdfMargin -
            (((j / wDeckC2.cards_per_row : Nat) : ℚ) + 1) *
              ((pageHeight - 2 * pdfMargin) / (wDeckC2.cards_per_column : ℚ))
        ∧ (pg.get ⟨j, hj⟩).width =
            (pageWidth - 2 * pdfMargin) / (wDeckC2.cards_per_row : ℚ)
        ∧ (pg.get ⟨j, hj⟩).height =
            (pageHeight - 2 * pdfMargin) / (wDeckC2.cards_per_column : ℚ))
    ∧ ((create_printable_cards_pdf wDeckC2).map
          (fun pg => pg.map Cell.card)).flatten = flatCopies wDeckC2.cards :=
  C2_row_major_layout wDeckC2 (by decide) (by decide)

/-! ### Lemmas: TTS nickname merging -/

theorem contains_mem_iff (l : List String) (a : String) :
    l.contains a = true ↔ a ∈ l :=
  List.elem_iff

theorem incFirstQuantity_names (n : String) (cards : List Card) :
    (incFirstQuantity n cards).map Card.name = cards.map Card.name := by
  induction cards with
  | nil => rfl
  | cons cd rest ih =>
      by_cases h : cd.name = n <;> simp [incFirstQuantity, h, ih]

theorem incFirstQuantity_sum (n : String) (cards : List Card)
    (h : n ∈ cards.map Card.name) :
    ((incFirstQuantity n cards).map Card.quantity).sum =
      (cards.map Card.quantity).sum + 1 := by
  induction cards with
  | nil => simp at h
  | cons cd rest ih =>
      by_cases hn : cd.name = n
      · simp [incFirstQuantity, hn]
        ring
      · have h' : n ∈ rest.map Card.name := by
          simp only [List.map_cons, List.mem_cons] at h
          rcases h with h | h
          · exact absurd h.symm hn
          · exact h
        simp [incFirstQuantity, hn, ih h']
        ring

theorem baseQty_incFirst_self (n : String) (cards : List Card)
    (h : n ∈ cards.map Card.name) :
    baseQty (incFirstQuantity n cards) n = baseQty cards n + 1 := by
  induction cards with
  | nil => simp at h
  | cons cd rest ih =>
      by_cases hn : cd.name = n
      · simp [incFirstQuantity, hn, baseQty, List.find?]
      · have h' : n ∈ rest.map Card.name := by
          simp only [List.map_cons, List.mem_cons] at h
          rcases h with h | h
          · exact absurd h.symm hn
          · exact h
        have hb : (cd.name == n) = false := by
          simp [hn]
        simp only [incFirstQuantity, if_neg hn, baseQty, List.find?, hb]
        exact ih h'

theorem baseQty_incFirst_ne (n m : String) (cards : List Card)
    (h : m ≠ n) :
    baseQty (incFirstQuantity n cards) m = baseQty cards m := by
  induction cards with
  | nil => rfl
  | cons cd rest ih =>
      by_cases hn : cd.name = n
      · have hb : (cd.name == m) = false := by
          simp [hn]
          exact fun hm => absurd hm.symm h
        simp only [incFirstQuantity, if_pos hn, baseQty, List.find?, hb]
      · by_cases hm : cd.name = m
        · have hb : (cd.name == m) = true := by simp [hm]
          simp only [incFirstQuantity, if_neg hn, baseQty, List.find?, hb]
        · have hb : (cd.name == m) = false := by simp [hm]
          simp only [incFirstQuantity, if_neg hn, baseQty, List.find?, hb]
          exact ih

theorem baseQty_append_ne (cards : List Card) (cd : Card) (m : String)
    (h : cd.name ≠ m) :
    baseQty (cards ++ [cd]) m = baseQty cards m := by
  induction cards with
  | nil =>
      have hb : (cd.name == m) = false := by simp [h]
      simp [baseQty, List.find?, hb]
  | cons c rest ih =>
      by_cases hm : c.name = m
      · have hb : (c.name == m) = true := by simp [hm]
        simp only [List.cons_append, baseQty, List.find?, hb]
      · have hb : (c.name == m) = false := by simp [hm]
        simp only [List.cons_append, baseQty, List.find?, hb]
        exact ih

theorem baseQty_append_self (cards : List Card) (cd : Card)
    (h : cd.name ∉ cards.map Card.name) :
    baseQty (cards ++ [cd]) cd.name = cd.quantity := by
  induction cards with
  | nil => simp [baseQty, List.find?]
  | cons c rest ih =>
      have hm : c.name ≠ cd.name := by
        intro he
        exact h (by simp [he])
      have hb : (c.name == cd.name) = false := by simp [hm]
      simp only [List.cons_append, baseQty, List.find?, hb]
      exact ih (fun hmem => h (List.mem_cons_of_mem _ hmem))

theorem contains_append_single (seen : List String) (a x : String) :
    (seen ++ [a]).contains x = (seen.contains x || x == a) := by
  simp [List.contains]
  rfl

theorem newNames_eq_firstDedup (l : List String) :
    ∀ seen, newNames seen l =
      firstDedup (l.filter (fun x => !seen.contains x)) := by
  induction l with
  | nil =>
      intro seen
      simp [newNames, firstDedup]
  | cons a l ih =>
      intro seen
      by_cases hc : seen.contains a
      · simp only [newNames, if_pos hc, List.filter_cons, hc, Bool.not_true]
        exact ih seen
      · have hcb : seen.contains a = false := by
          simp only [Bool.not_eq_true] at hc
          exact hc
        simp only [newNames, hcb, Bool.false_eq_true, if_false,
          List.filter_cons, Bool.not_false, if_true]
        rw [firstDedup, ih (seen ++ [a]), List.filter_filter]
        have hf : l.filter (fun x => !(seen ++ [a]).contains x) =
            l.filter (fun x => decide (x ≠ a) && !seen.contains x) := by
          refine List.filter_congr (fun x _ => ?_)
          rw [contains_append_single]
          by_cases hx : x = a
          · subst hx
            simp
          · have hxb : (x == a) = false := by simp [hx]
            simp [hxb, hx, Bool.and_comm]
        rw [hf]

theorem baseQty_mem_nodup (cards : List Card)
    (hnd : (cards.map Card.name).Nodup) (cd : Card) (h : cd ∈ cards) :
    baseQty cards cd.name = cd.quantity := by
  induction cards with
  | nil => simp at h
  | cons c rest ih =>
      rcases List.mem_cons.mp h with he | hm
      · subst he
        simp [baseQty, List.find?]
      · have hne : c.name ≠ cd.name := by
          intro he
          have : cd.name ∈ rest.map Card.name := List.mem_map_of_mem _ hm
          rw [List.map_cons, List.nodup_cons] at hnd
          exact hnd.1 (he ▸ this)
        have hb : (c.name == cd.name) = false := by simp [hne]
        simp only [baseQty, List.find?, hb]
        rw [List.map_cons, List.nodup_cons] at hnd
        exact ih hnd.2 hm

theorem load_tts_fold_inv (images : List (String × String))
    (rest : List TTSContainedObject) :
    ∀ (p : GADeckPrinter) (counted : List String),
    counted = p.cards.map Card.name →
    (p.cards.map Card.name).Nodup →
    ((rest.foldl (load_from_tts_step images) (p, counted)).1.cards.map
        Card.name = counted ++ newNames counted (rest.map ttsName))
    ∧ (∀ cd ∈ (rest.foldl (load_from_tts_step images) (p, counted)).1.cards,
        cd.quantity = baseQty p.cards cd.name
          + ((rest.map ttsName).count cd.name : Int))
    ∧ (((rest.foldl (load_from_tts_step images) (p, counted)).1.cards.map
          Card.quantity).sum =
        (p.cards.map Card.quantity).sum + rest.length) := by
  induction rest with
  | nil =>
      intro p counted hc hnd
      refine ⟨by simp [newNames, hc], ?_, by simp⟩
      intro cd hcd
      simp only [List.foldl_nil] at hcd
      simp only [List.map_nil, List.count_nil, Nat.cast_zero, add_zero]
      exact (baseQty_mem_nodup p.cards hnd cd hcd).symm
  | cons r rest ih =>
      intro p counted hc hnd
      simp only [List.foldl_cons, List.map_cons, List.length_cons]
      by_cases hmem : counted.contains (ttsName r)
      · -- repeated nickname: bump the first matching entry
        have hmemP : ttsName r ∈ counted :=
          (contains_mem_iff counted (ttsName r)).mp hmem
        have hstep : load_from_tts_step images (p, counted) r =
            ({ p with cards := incFirstQuantity (ttsName r) p.cards },
             counted) := by
          simp [load_from_tts_step, hmem, hmemP]
        rw [hstep]
        have hmm : ttsName r ∈ p.cards.map Card.name := by
          rw [← hc]
          exact (contains_mem_iff counted (ttsName r)).mp hmem
        have hc' : counted =
            (incFirstQuantity (ttsName r) p.cards).map Card.name := by
          rw [incFirstQuantity_names]
          exact hc
        have hnd' :
            ((incFirstQuantity (ttsName r) p.cards).map Card.name).Nodup := by
          rw [incFirstQuantity_names]
          exact hnd
        obtain ⟨ha, hb, hs⟩ :=
          ih { p with cards := incFirstQuantity (ttsName r) p.cards }
            counted hc' hnd'
        refine ⟨?_, ?_, ?_⟩
        · rw [ha, newNames, if_pos hmem]
        · intro cd hcd
          have hq := hb cd hcd
          by_cases hname : cd.name = ttsName r
          · rw [hq, hname, baseQty_incFirst_self _ _ hmm,
                List.count_cons]
            simp [hname]
            ring
          · rw [hq, baseQty_incFirst_ne _ _ _ hname, List.count_cons]
            have : (ttsName r == cd.name) = false := by
              simp
              exact fun he => absurd he.symm hname
            simp [this]
        · rw [hs, incFirstQuantity_sum _ _ hmm]
          push_cast
          ring
      · -- new nickname: append a fresh entry with quantity 1
        have hmemb : counted.contains (ttsName r) = false := by
          simp only [Bool.not_eq_true] at hmem
          exact hmem
        have hnotin : ttsName r ∉ p.cards.map Card.name := by
          rw [← hc]
          intro hin
          rw [(contains_mem_iff counted (ttsName r)).mpr hin] at hmemb
          exact Bool.true_eq_false.mp hmemb
        set newCard : Card :=
          { name := ttsName r, type := "Card", cost := 0, power := 0,
            toughness := 0, ability := r.Description.getD "",
            quantity := 1,
            image_url :=
              (List.lookup (toString (Int.fdiv (r.CardID.getD 0) 100))
                images).getD "" } with hnew
        have hmemP : ttsName r ∉ counted := fun hin =>
          hmem ((contains_mem_iff counted (ttsName r)).mpr hin)
        have hstep : load_from_tts_step images (p, counted) r =
            ({ p with cards := p.cards ++ [newCard] },
             counted ++ [ttsName r]) := by
          simp [load_from_tts_step, hmemb, hmemP, GADeckPrinter.add_card,
            hnew]
        rw [hstep]
        have hcn : newCard.name = ttsName r := rfl
        have hcq : newCard.quantity = 1 := rfl
        have hc' : counted ++ [ttsName r] =
            (p.cards ++ [newCard]).map Card.name := by
          rw [List.map_append, hc]
          simp [hcn]
        have hnd' : ((p.cards ++ [newCard]).map Card.name).Nodup := by
          rw [List.map_append]
          simp only [List.map_cons, List.map_nil]
          rw [List.nodup_append]
          refine ⟨hnd, List.nodup_singleton _, ?_⟩
          intro x hx
          simp only [List.mem_singleton]
          intro he
          exact hnotin (he ▸ hx)
        obtain ⟨ha, hb, hs⟩ :=
          ih { p with cards := p.cards ++ [newCard] }
            (counted ++ [ttsName r]) hc' hnd'
        refine ⟨?_, ?_, ?_⟩
        · rw [ha, newNames, if_neg (by rw [hmemb]; exact Bool.false_ne_true)]
          simp
        · intro cd hcd
          have hq := hb cd hcd
          by_cases hname : cd.name = ttsName r
          · have h1 : baseQty (p.cards ++ [newCard]) (ttsName r) = 1 := by
              have := baseQty_append_self p.cards newCard
                (by rw [hcn]; exact hnotin)
              rw [hcn, hcq] at this
              exact this
            have hbq : baseQty p.cards (ttsName r) = 0 := by
              unfold baseQty
              cases hfind : p.cards.find? (fun cd => cd.name == ttsName r) with
              | none => rfl
              | some c =>
                  have hcm : c ∈ p.cards := List.mem_of_find?_eq_some hfind
                  have hceq := List.find?_some hfind
                  simp only [beq_iff_eq] at hceq
                  exact absurd (hceq ▸ List.mem_map_of_mem Card.name hcm)
                    hnotin
            rw [hq, hname, h1, hbq, List.count_cons]
            simp
            ring
          · rw [hq, baseQty_append_ne p.cards newCard cd.name
                (by rw [hcn]; exact fun he => absurd he.symm hname),
              List.count_cons]
            have : (ttsName r == cd.name) = false := by
              simp
              exact fun he => absurd he.symm hname
            simp [this]
        · rw [hs]
          simp only [List.map_append, List.sum_append, List.map_cons,
            List.map_nil, List.sum_cons, List.sum_nil, hnew]
          push_cast
          ring

/-- Claim C3: on the save-file shape (starting from a printer with no
cards), contained-card records are deduplicated by exact equality of their
nickname: the resulting entries are the nicknames in order of first
appearance, each entry's quantity is the number of contained records
carrying its nickname (first occurrence contributes the initial 1, each
later occurrence an increment), and the total quantity equals the number
of contained-card records. -/
theorem C3_tts_nickname_merge (p : GADeckPrinter) (save : TTSSaveFile)
    (deckObj : TTSDeckObject) (os : List TTSDeckObject)
    (hs : save.ObjectStates = deckObj :: os) (hp : p.cards = []) :
    ((load_from_tts p save).cards.map Card.name =
        firstDedup (deckObj.ContainedObjects.map ttsName))
    ∧ (∀ cd ∈ (load_from_tts p save).cards,
        cd.quantity =
          ((deckObj.ContainedObjects.map ttsName).count cd.name : Int))
    ∧ (((load_from_tts p save).cards.map Card.quantity).sum =
        (deckObj.ContainedObjects.length : Int)) := by
  rw [load_from_tts, hs]
  set p' : GADeckPrinter :=
    { p with deck_name := deckObj.Nickname.getD "GA_Deck" } with hp'
  have hpc : p'.cards = [] := by rw [hp']; exact hp
  obtain ⟨ha, hb, hs'⟩ :=
    load_tts_fold_inv
      (deckObj.CustomDeck.map (fun q => (q.1, q.2.FaceURL.getD "")))
      deckObj.ContainedObjects p' [] (by rw [hpc]; rfl)
      (by rw [hpc]; exact List.nodup_nil)
  refine ⟨?_, ?_, ?_⟩
  · rw [ha, List.nil_append, newNames_eq_firstDedup]
    congr 1
    simp
  · intro cd hcd
    have := hb cd hcd
    rw [this, hpc]
    simp [baseQty, List.find?]
  · rw [hs', hpc]
    simp



theorem C3_tts_nickname_merge_witness :
    ((load_from_tts defaultPrinter wSaveC3).cards.map Card.name =
        firstDedup (wDeckObjC3.ContainedObjects.map ttsName))
    ∧ (∀ cd ∈ (load_from_tts defaultPrinter wSaveC3).cards,
        cd.quantity =
          ((wDeckObjC3.ContainedObjects.map ttsName).count cd.name : Int))
    ∧ (((load_from_tts defaultPrinter wSaveC3).cards.map Card.quantity).sum =
        (wDeckObjC3.ContainedObjects.length : Int)) :=
  C3_tts_nickname_merge defaultPrinter wSaveC3 wDeckObjC3 [] rfl rfl

/-! ### Claims C5, C6, C7 and the C9 counterexample -/

/-- Claim C7: whenever normalization yields zero total card copies (an
empty cards list, or all entry quantities summing to 0),
`generate_from_source` produces no document and returns the explicit
empty-result signal `(None, None)`; the embedded function is total, so no
exception is raised. -/
theorem C7_empty_result (printer : GADeckPrinter) (out : String)
    (h : printer.cards = [] ∨ (printer.cards.map Card.quantity).sum = 0) :
    generate_from_source printer out = (none, none, []) := by
  rw [generate_from_source, if_pos h]


theorem C7_empty_result_witness :
    generate_from_source wPrinterC7 "output/cards_printable.pdf" =
      (none, none, []) :=
  C7_empty_result wPrinterC7 "output/cards_printable.pdf"
    (Or.inr (by decide))

/-- Claim C5 (counterexample): an explicit `"quantity": 0` yields an entry
of quantity 0 — not 1 — and an explicit `"quantity": null` raises a
TypeError inside `int(...)`: the `or 1` guard only protects the `qty`
key, not `quantity`. -/
theorem C5_quantity_guard_counterexample :
    (build_printer_from_deck_json
        (.arr [.obj [("name", .str "A"), ("quantity", .num 0)]])).map
        (fun p => p.1.cards.map Card.quantity) = .ok [0]
    ∧ build_printer_from_deck_json
        (.arr [.obj [("name", .str "A"), ("quantity", .null)]]) =
      .error (.typeError "int() argument must not be None") :=
  ⟨rfl, rfl⟩

/-- Claim C5 (amended): quantity resolution tries `quantity` then `qty`,
defaulting to 1, coercing with `int(...)`; a null or zero value stored
under `qty` still yields 1, while a value stored under `quantity` reaches
the coercion unguarded (an explicit 0 stays 0, an explicit null raises).
The closed conjuncts run `build_printer_from_deck_json` on records
exercising the guarded `qty` path. -/
theorem C5_quantity_resolution_amended :
    (∀ fs, resolveQty fs = resolveQtyAmendedSpec fs)
    ∧ (build_printer_from_deck_json
        (.arr [.obj [("name", .str "A"), ("qty", .num 0)]])).map
        (fun p => p.1.cards.map Card.quantity) = .ok [1]
    ∧ (build_printer_from_deck_json
        (.arr [.obj [("name", .str "A"), ("qty", .null)]])).map
        (fun p => p.1.cards.map Card.quantity) = .ok [1] := by
  refine ⟨?_, rfl, rfl⟩
  intro fs
  unfold resolveQty resolveQtyAmendedSpec
  cases hq : jget fs "quantity" with
  | some v => rfl
  | none =>
    cases hq2 : jget fs "qty" with
    | some v =>
      rw [pyOr2]
      by_cases ht : truthy v
      · simp [ht]
      · simp [ht]
        rfl
    | none => rfl


/-- Claim C6 (code bug): the save/load round trip fails on every deck with
at least one card — `save_to_json` writes the record key `type`, but
`load_from_json` expands each record with `add_card(**card)` whose
parameter is named `card_type`, so the load raises TypeError instead of
rebuilding the deck.  Only the empty deck round-trips. -/
theorem C6_roundtrip_type_mismatch :
    load_from_json defaultPrinter (save_to_json wPrinterC6) =
      .error (.typeError
        "add_card() got an unexpected keyword argument type")
    ∧ load_from_json defaultPrinter
        (save_to_json { defaultPrinter with deck_name := "D" }) =
      .ok { defaultPrinter with deck_name := "D" } :=
  ⟨rfl, rfl⟩

/-- Claim C9 (counterexample): `"ftp://example.com"` carries a scheme and
matches no host rule, so the claim as stated requires it back unchanged;
the code checks `startswith("http")` instead and prefixes `https://`. -/
theorem C9_scheme_counterexample :
    transform_deck_url "ftp://example.com" = "https://ftp://example.com"
    ∧ transform_deck_url "ftp://example.com" ≠ "ftp://example.com" := by
  refine ⟨by decide, by decide⟩

/-- Claim C9 (amended): `transform_deck_url` equals the table-driven
specification: at most one host-specific rule — the first of the fixed
table whose host substring matches — is applied, the URL is returned
unchanged when no substring matches, and `https://` is prefixed exactly
when the input does not start with "http". -/
theorem C9_single_rule_amended (u : String) :
    transform_deck_url u = transform_deck_url_table u := by
  unfold transform_deck_url transform_deck_url_table urlRuleTable
  set v := if pyStartsWith u "http" then u else "https://" ++ u with hv
  by_cases h1 : containsSubstr v "dungeongui.de"
  · simp [List.find?, h1]
  · by_cases h2 :
      (containsSubstr v "silvie.org" || containsSubstr v "silv.ie") = true
    · simp [List.find?, h1, h2]
    · by_cases h3 : containsSubstr v "shoutatyourdecks.com"
      · simp [List.find?, h1, h2, h3]
      · by_cases h4 : containsSubstr v "silvie.gg"
        · simp [List.find?, h1, h2, h3, h4]
        · by_cases h5 : containsSubstr v "jsonblob.com"
          · simp [List.find?, h1, h2, h3, h4, h5]
          · by_cases h6 : containsSubstr v "tcgarchitect.com"
            · simp [List.find?, h1, h2, h3, h4, h5, h6]
            · by_cases h7 : containsSubstr v "fractalofin.site"
              · simp [List.find?, h1, h2, h3, h4, h5, h6, h7]
              · simp [List.find?, h1, h2, h3, h4, h5, h6, h7]

/-! ### Claim C4: sub-deck tagging -/

theorem tagArr_mkSimpleRec (k : String) (p : String × Int) :
    tagArrRecord k (mkSimpleRec p) = taggedRecJson k p := by
  simp [tagArrRecord, mkSimpleRec, taggedRecJson, setdefault]

theorem processPreferred_lookup_none
    (st : List (String × Json) × List Json × List String) (k : String)
    (h : List.lookup k st.1 = none) : processPreferred st k = st := by
  simp [processPreferred, h]

theorem processPreferred_lookup_falsy
    (st : List (String × Json) × List Json × List String) (k : String)
    (v : Json) (h : List.lookup k st.1 = some v)
    (ht : truthy v = false) : processPreferred st k = st := by
  simp [processPreferred, h, ht]

theorem processPreferred_lookup_truthy
    (st : List (String × Json) × List Json × List String) (k : String)
    (v : Json) (h : List.lookup k st.1 = some v) (ht : truthy v = true) :
    processPreferred st k =
      (replaceFirst st.1 k (tagValue k v),
       st.2.1 ++ collectValue (tagValue k v),
       st.2.2 ++ [k]) := by
  simp [processPreferred, h, ht]

theorem processRest_seen (seen : List String)
    (st : List (String × Json) × List Json) (q : String × Json)
    (h : seen.contains q.1 = true) :
    processRest seen st q = (st.1 ++ [q], st.2) := by
  have hm : q.1 ∈ seen := (contains_mem_iff seen q.1).mp h
  simp [processRest, hm]

theorem processRest_falsy (seen : List String)
    (st : List (String × Json) × List Json) (q : String × Json)
    (h1 : seen.contains q.1 = false) (h2 : truthy q.2 = false) :
    processRest seen st q = (st.1 ++ [q], st.2) := by
  have hm : q.1 ∉ seen := by
    intro hin
    rw [(contains_mem_iff seen q.1).mpr hin] at h1
    exact Bool.true_eq_false.mp h1
  simp [processRest, hm, h2]

theorem processRest_tag (seen : List String)
    (st : List (String × Json) × List Json) (q : String × Json)
    (h1 : seen.contains q.1 = false) (h2 : truthy q.2 = true) :
    processRest seen st q =
      (st.1 ++ [(q.1, tagValue q.1 q.2)],
       st.2 ++ collectValue (tagValue q.1 q.2)) := by
  have hm : q.1 ∉ seen := by
    intro hin
    rw [(contains_mem_iff seen q.1).mpr hin] at h1
    exact Bool.true_eq_false.mp h1
  simp [processRest, hm, h2]

theorem aggregateDict_two_entries (k2 : String) (A B : Json)
    (hk2 : k2 ≠ "main") :
    (aggregateDict [("main", A), (k2, B)]).2 =
      (if truthy A then collectValue (tagValue "main" A) else []) ++
      (if truthy B then collectValue (tagValue k2 B) else []) := by
  have hbm : (k2 == "main") = false := by simp [hk2]
  rw [aggregateDict]
  simp only [preferredKeys, List.foldl_cons, List.foldl_nil]
  by_cases hk2m : k2 = "material"
  · subst hk2m
    by_cases hA : truthy A <;> by_cases hB : truthy B <;>
      simp [processPreferred, processRest, replaceFirst, List.lookup,
        List.contains, List.elem, hA, hB]
  · by_cases hk2s : k2 = "sideboard"
    · subst hk2s
      by_cases hA : truthy A <;> by_cases hB : truthy B <;>
        simp [processPreferred, processRest, replaceFirst, List.lookup,
          List.contains, List.elem, hA, hB]
    · have hbmat : ("material" == k2) = false := by
        simp
        exact fun he => hk2m he.symm
      have hbsid : ("sideboard" == k2) = false := by
        simp
        exact fun he => hk2s he.symm
      have hbm2 : ("main" == k2) = false := by
        simp
        exact fun he => hk2 he.symm
      by_cases hA : truthy A <;> by_cases hB : truthy B <;>
        simp [processPreferred, processRest, replaceFirst, List.lookup,
          List.contains, List.elem, hA, hB, hbm, hbmat, hbsid, hbm2, hk2]

theorem collect_tag_simple (k : String) (ms : List (String × Int)) :
    (if truthy (.arr (ms.map mkSimpleRec)) then
        collectValue (tagValue k (.arr (ms.map mkSimpleRec))) else []) =
      ms.map (taggedRecJson k) := by
  cases ms with
  | nil => simp [truthy]
  | cons q ms =>
      have hmap : List.map (tagArrRecord k ∘ mkSimpleRec) ms =
          ms.map (taggedRecJson k) :=
        List.map_congr_left (fun p _ => by
          simp only [Function.comp_apply]
          exact tagArr_mkSimpleRec k p)
      simp only [truthy, tagValue, collectValue, List.map_cons,
        List.isEmpty_cons, Bool.not_false, if_true, List.map_map]
      rw [tagArr_mkSimpleRec, hmap]

theorem addEntry_tagged_main (printer : GADeckPrinter) (p : String × Int)
    (hp : p.1 ≠ "") :
    addEntry printer (taggedRecJson "main" p) =
      .ok (printer.add_card p.1 "Card" 0 0 0 "" p.2 "") := by
  have hb : (p.1 != "") = true := by simp [hp]
  simp [addEntry, taggedRecJson, jget, List.lookup, pyOr2, truthy, hb,
    resolveQty, pyInt, asStr, getStrD, isMainTag]
  rfl

theorem addEntry_tagged_sub (printer : GADeckPrinter) (sub : String)
    (p : String × Int) (hp : p.1 ≠ "") (h1 : sub ≠ "main") (h2 : sub ≠ "") :
    addEntry printer (taggedRecJson sub p) =
      .ok (printer.add_card ("[" ++ sub ++ "] " ++ p.1) "Card" 0 0 0 ""
        p.2 "") := by
  have hb : (p.1 != "") = true := by simp [hp]
  have hs : (sub != "") = true := by simp [h2]
  have hm : (sub == "main") = false := by simp [h1]
  simp [addEntry, taggedRecJson, jget, List.lookup, pyOr2, truthy, hb, hs,
    hm, resolveQty, pyInt, asStr, getStrD, isMainTag]
  rfl

theorem foldlM_addEntry_main (ms : List (String × Int)) :
    ∀ printer : GADeckPrinter, (∀ p ∈ ms, p.1 ≠ "") →
    List.foldlM addEntry printer (ms.map (taggedRecJson "main")) =
      .ok { printer with cards := printer.cards ++ ms.map mainEntryCard } := by
  induction ms with
  | nil =>
      intro printer _
      simp only [List.map_nil, List.foldlM_nil, List.append_nil]
      rfl
  | cons q ms ih =>
      intro printer hall
      rw [List.map_cons, List.foldlM_cons,
        addEntry_tagged_main printer q (hall q (List.mem_cons_self _ _))]
      have hstep := ih (printer.add_card q.1 "Card" 0 0 0 "" q.2 "")
        (fun p hp => hall p (List.mem_cons_of_mem _ hp))
      rw [show (Except.ok (printer.add_card q.1 "Card" 0 0 0 "" q.2 "") >>=
          fun s => List.foldlM addEntry s (ms.map (taggedRecJson "main"))) =
          List.foldlM addEntry (printer.add_card q.1 "Card" 0 0 0 "" q.2 "")
            (ms.map (taggedRecJson "main")) from rfl, hstep]
      simp [GADeckPrinter.add_card, mainEntryCard]

theorem foldlM_addEntry_sub (sub : String) (ss : List (String × Int))
    (h1 : sub ≠ "main") (h2 : sub ≠ "") :
    ∀ printer : GADeckPrinter, (∀ p ∈ ss, p.1 ≠ "") →
    List.foldlM addEntry printer (ss.map (taggedRecJson sub)) =
      .ok { printer with
            cards := printer.cards ++ ss.map (taggedEntryCard sub) } := by
  induction ss with
  | nil =>
      intro printer _
      simp only [List.map_nil, List.foldlM_nil, List.append_nil]
      rfl
  | cons q ss ih =>
      intro printer hall
      rw [List.map_cons, List.foldlM_cons,
        addEntry_tagged_sub printer sub q (hall q (List.mem_cons_self _ _))
          h1 h2]
      have hstep := ih (printer.add_card ("[" ++ sub ++ "] " ++ q.1)
          "Card" 0 0 0 "" q.2 "")
        (fun p hp => hall p (List.mem_cons_of_mem _ hp))
      rw [show (Except.ok (printer.add_card ("[" ++ sub ++ "] " ++ q.1)
            "Card" 0 0 0 "" q.2 "") >>=
          fun s => List.foldlM addEntry s (ss.map (taggedRecJson sub))) =
          List.foldlM addEntry (printer.add_card ("[" ++ sub ++ "] " ++ q.1)
            "Card" 0 0 0 "" q.2 "") (ss.map (taggedRecJson sub)) from rfl,
        hstep]
      simp [GADeckPrinter.add_card, taggedEntryCard]

/-- Claim C4: on the third-party aggregate shape, every record of a
sub-deck other than "main" resolves with its name prefixed by the
bracketed sub-deck tag, while "main" records keep their names, and the
two kinds are appended as separate entries (never merged): the resulting
card list is exactly the main entries followed by the tagged sub-deck
entries. -/
theorem C4_subdeck_tagging (sub : String) (ms ss : List (String × Int))
    (h1 : sub ≠ "main") (h2 : sub ≠ "")
    (hms : ∀ p ∈ ms, p.1 ≠ "") (hss : ∀ p ∈ ss, p.1 ≠ "") :
    ∃ d', build_printer_from_deck_json (mkAggregate sub ms ss) =
      .ok ({ deck_name := "GA_Deck", cards_per_row := 3,
             cards_per_column := 3,
             cards := ms.map mainEntryCard ++ ss.map (taggedEntryCard sub) },
           d') := by
  have hroute : build_printer_from_deck_json (mkAggregate sub ms ss) =
      (runEntries (aggregateDict
          [("main", .arr (ms.map mkSimpleRec)),
           (sub, .arr (ss.map mkSimpleRec))]).2).map
        (fun p => (p, .obj (replaceFirst
          [("cards", .obj [("main", .arr (ms.map mkSimpleRec)),
                           (sub, .arr (ss.map mkSimpleRec))])] "cards"
          (.obj (aggregateDict
            [("main", .arr (ms.map mkSimpleRec)),
             (sub, .arr (ss.map mkSimpleRec))]).1)))) := rfl
  refine ⟨.obj (replaceFirst
      [("cards", .obj [("main", .arr (ms.map mkSimpleRec)),
                       (sub, .arr (ss.map mkSimpleRec))])] "cards"
      (.obj (aggregateDict
        [("main", .arr (ms.map mkSimpleRec)),
         (sub, .arr (ss.map mkSimpleRec))]).1)), ?_⟩
  rw [hroute, aggregateDict_two_entries sub _ _ h1,
    collect_tag_simple "main" ms, collect_tag_simple sub ss]
  rw [runEntries, List.foldlM_append,
    foldlM_addEntry_main ms defaultPrinter hms]
  rw [show ((Except.ok { defaultPrinter with
        cards := defaultPrinter.cards ++ ms.map mainEntryCard } >>=
      fun x => List.foldlM addEntry x (ss.map (taggedRecJson sub))) :
        Except PyErr GADeckPrinter) =
      List.foldlM addEntry { defaultPrinter with
        cards := defaultPrinter.cards ++ ms.map mainEntryCard }
        (ss.map (taggedRecJson sub)) from rfl]
  rw [foldlM_addEntry_sub sub ss h1 h2 _ hss]
  simp [defaultPrinter, Except.map]

theorem C4_subdeck_tagging_witness :
    ∃ d', build_printer_from_deck_json
        (mkAggregate "sideboard" [("Bolt", 2)] [("Bolt", 1)]) =
      .ok ({ deck_name := "GA_Deck", cards_per_row := 3,
             cards_per_column := 3,
             cards := [(("Bolt", 2) : String × Int)].map mainEntryCard ++
               [(("Bolt", 1) : String × Int)].map
                 (taggedEntryCard "sideboard") }, d') :=
  C4_subdeck_tagging "sideboard" [("Bolt", 2)] [("Bolt", 1)]
    (by decide) (by decide) (by decide) (by decide)

/-! ### Claims C8 and C10: mutation closed forms, idempotence -/

theorem lookup_replaceFirst_ne (fs : List (String × Json)) (k k' : String)
    (v : Json) (h : k' ≠ k) :
    List.lookup k' (replaceFirst fs k v) = List.lookup k' fs := by
  induction fs with
  | nil => rfl
  | cons q rest ih =>
      by_cases hq : q.1 = k
      · have hb : (q.1 == k) = true := by simp [hq]
        have hb' : (k' == q.1) = false := by simp [hq, h]
        simp [replaceFirst, List.lookup, hb, hb']
      · have hb : (q.1 == k) = false := by simp [hq]
        simp only [replaceFirst, hb, Bool.false_eq_true, if_false]
        by_cases hk' : k' = q.1
        · have hb2 : (k' == q.1) = true := by simp [hk']
          simp [List.lookup, hb2]
        · have hb2 : (k' == q.1) = false := by simp [hk']
          simp [List.lookup, hb2, ih]

theorem lookup_replaceFirst_eq (fs : List (String × Json)) (k : String)
    (v w : Json) (h : List.lookup k fs = some w) :
    List.lookup k (replaceFirst fs k v) = some v := by
  induction fs with
  | nil => simp [List.lookup] at h
  | cons q rest ih =>
      by_cases hq : q.1 = k
      · have hb : (q.1 == k) = true := by simp [hq]
        have hb2 : (k == q.1) = true := by simp [hq]
        simp [replaceFirst, List.lookup, hb, hb2]
      · have hb : (q.1 == k) = false := by simp [hq]
        have hb2 : (k == q.1) = false := by
          simp
          exact fun he => hq he.symm
        simp only [List.lookup, hb2, Bool.false_eq_true, if_false] at h
        simp [replaceFirst, List.lookup, hb, hb2, ih h]

theorem replaceFirst_none (fs : List (String × Json)) (k : String)
    (v : Json) (h : List.lookup k fs = none) :
    replaceFirst fs k v = fs := by
  induction fs with
  | nil => rfl
  | cons q rest ih =>
      by_cases hq : q.1 = k
      · have hb2 : (k == q.1) = true := by simp [hq]
        simp [List.lookup, hb2] at h
      · have hb : (q.1 == k) = false := by simp [hq]
        have hb2 : (k == q.1) = false := by
          simp
          exact fun he => hq he.symm
        simp only [List.lookup, hb2, Bool.false_eq_true, if_false] at h
        simp [replaceFirst, hb, ih h]

theorem replaceFirst_self (fs : List (String × Json)) (k : String)
    (v : Json) (h : List.lookup k fs = some v) :
    replaceFirst fs k v = fs := by
  induction fs with
  | nil => rfl
  | cons q rest ih =>
      by_cases hq : q.1 = k
      · have hb : (q.1 == k) = true := by simp [hq]
        have hb2 : (k == q.1) = true := by simp [hq]
        simp only [List.lookup, hb2, if_true] at h
        simp only [replaceFirst, hb, if_true]
        rw [Option.some_inj] at h
        rw [← h]
      · have hb : (q.1 == k) = false := by simp [hq]
        have hb2 : (k == q.1) = false := by
          simp
          exact fun he => hq he.symm
        simp only [List.lookup, hb2, Bool.false_eq_true, if_false] at h
        simp [replaceFirst, hb, ih h]

theorem replaceFirst_replaceFirst (fs : List (String × Json)) (k : String)
    (v w : Json) :
    replaceFirst (replaceFirst fs k v) k w = replaceFirst fs k w := by
  induction fs with
  | nil => rfl
  | cons q rest ih =>
      by_cases hq : q.1 = k
      · have hb : (q.1 == k) = true := by simp [hq]
        simp [replaceFirst, hb]
      · have hb : (q.1 == k) = false := by simp [hq]
        simp [replaceFirst, hb, ih]

theorem lookup_map_kv (g : String → Json → Json)
    (fs : List (String × Json)) (k : String) :
    List.lookup k (fs.map (fun q => (q.1, g q.1 q.2))) =
      (List.lookup k fs).map (g k) := by
  induction fs with
  | nil => rfl
  | cons q rest ih =>
      by_cases hq : k = q.1
      · have hb : (k == q.1) = true := by simp [hq]
        simp [List.lookup, hb, hq]
      · have hb : (k == q.1) = false := by simp [hq]
        simp [List.lookup, hb, ih]

theorem setdefault_hasKey (fs : List (String × Json)) (k : String)
    (v : Json) : (setdefault fs k v).any (fun q => q.1 == k) = true := by
  rw [setdefault]
  by_cases h : fs.any (fun q => q.1 == k)
  · rw [if_pos h]
    exact h
  · rw [if_neg h]
    simp

theorem setdefault_setdefault (fs : List (String × Json)) (k : String)
    (v w : Json) :
    setdefault (setdefault fs k v) k w = setdefault fs k v := by
  rw [setdefault, if_pos]
  exact setdefault_hasKey fs k v

theorem setdefault_hasKey_other (fs : List (String × Json)) (k k' : String)
    (v : Json) (h : fs.any (fun q => q.1 == k') = true) :
    (setdefault fs k v).any (fun q => q.1 == k') = true := by
  rw [setdefault]
  by_cases hk : fs.any (fun q => q.1 == k)
  · rw [if_pos hk]
    exact h
  · rw [if_neg hk]
    rw [List.any_append]
    simp [h]

theorem tagArrRecord_idem (k : String) (r : Json) :
    tagArrRecord k (tagArrRecord k r) = tagArrRecord k r := by
  cases r <;> simp [tagArrRecord, setdefault_setdefault]

theorem tagObjRecord_idem (key k : String) (r : Json) :
    tagObjRecord key k (tagObjRecord key k r) = tagObjRecord key k r := by
  cases r with
  | obj fs =>
      simp only [tagObjRecord]
      rw [show setdefault (setdefault (setdefault fs "name" (.str key))
          "_source_deck" (.str k)) "name" (.str key) =
          setdefault (setdefault fs "name" (.str key)) "_source_deck"
            (.str k) from ?_]
      · rw [setdefault_setdefault]
      · rw [setdefault]
        rw [if_pos (setdefault_hasKey_other _ _ _ _
          (setdefault_hasKey fs "name" (.str key)))]
  | null => rfl
  | bool b => rfl
  | num n => rfl
  | str s => rfl
  | arr l => rfl

theorem tagValue_idem (k : String) (v : Json) :
    tagValue k (tagValue k v) = tagValue k v := by
  cases v with
  | arr l =>
      simp only [tagValue, List.map_map]
      congr 1
      exact List.map_congr_left (fun r _ => tagArrRecord_idem k r)
  | obj kvs =>
      simp only [tagValue, List.map_map]
      congr 1
      exact List.map_congr_left (fun q _ => by
        simp only [Function.comp_apply]
        rw [tagObjRecord_idem])
  | null => rfl
  | bool b => rfl
  | num n => rfl
  | str s => rfl

theorem truthy_tagValue (k : String) (v : Json) :
    truthy (tagValue k v) = truthy v := by
  cases v with
  | arr l => cases l <;> rfl
  | obj kvs => cases kvs <;> rfl
  | null => rfl
  | bool b => rfl
  | num n => rfl
  | str s => rfl

theorem loop2_closed (seen : List String) (fs : List (String × Json)) :
    ∀ acc E, fs.foldl (processRest seen) (acc, E) =
      (acc ++ fs.map (gRest seen),
       E ++ (fs.map (colRest seen)).flatten) := by
  induction fs with
  | nil => intro acc E; simp
  | cons q fs ih =>
      intro acc E
      by_cases hc : seen.contains q.1
      · have hm : q.1 ∈ seen := (contains_mem_iff seen q.1).mp hc
        rw [List.foldl_cons, processRest_seen seen _ q hc, ih]
        simp [gRest, colRest, hm]
      · have hcf : seen.contains q.1 = false := by
          simp only [Bool.not_eq_true] at hc
          exact hc
        have hm : q.1 ∉ seen := fun hin =>
          hc ((contains_mem_iff seen q.1).mpr hin)
        by_cases ht : truthy q.2
        · rw [List.foldl_cons, processRest_tag seen _ q hcf ht, ih]
          simp [gRest, colRest, hm, ht]
        · have htf : truthy q.2 = false := by
            simp only [Bool.not_eq_true] at ht
            exact ht
          rw [List.foldl_cons, processRest_falsy seen _ q hcf htf, ih]
          simp [gRest, colRest, hm, htf]

theorem lookup_tagPref_ne (fs : List (String × Json)) (k k' : String)
    (h : k' ≠ k) :
    List.lookup k' (tagPrefFields k fs) = List.lookup k' fs := by
  cases hv : List.lookup k fs with
  | none => simp [tagPrefFields, hv]
  | some v =>
      by_cases ht : truthy v
      · simp only [tagPrefFields, hv, ht, if_true]
        exact lookup_replaceFirst_ne fs k k' _ h
      · simp [tagPrefFields, hv, ht]

theorem hasTruthy_tagPref_ne (fs : List (String × Json)) (k k' : String)
    (h : k' ≠ k) :
    hasTruthy (tagPrefFields k fs) k' = hasTruthy fs k' := by
  rw [hasTruthy, hasTruthy, lookup_tagPref_ne fs k k' h]

theorem colPrefE_tagPref_ne (fs : List (String × Json)) (k k' : String)
    (h : k' ≠ k) :
    colPrefE (tagPrefFields k fs) k' = colPrefE fs k' := by
  rw [colPrefE, colPrefE, lookup_tagPref_ne fs k k' h]

theorem processPreferred_eq_step
    (st : List (String × Json) × List Json × List String) (k : String) :
    processPreferred st k =
      (tagPrefFields k st.1, st.2.1 ++ colPrefE st.1 k,
       st.2.2 ++ if hasTruthy st.1 k then [k] else []) := by
  cases hv : List.lookup k st.1 with
  | none => simp [processPreferred, tagPrefFields, colPrefE, hasTruthy, hv]
  | some v =>
      by_cases ht : truthy v <;>
        simp [processPreferred, tagPrefFields, colPrefE, hasTruthy, hv, ht]

theorem loop1_closed (ks : List String) :
    ∀ (fs : List (String × Json)) (E : List Json) (S : List String),
    ks.Nodup →
    ks.foldl processPreferred (fs, E, S) =
      (loop1Fields ks fs, E ++ (ks.map (colPrefE fs)).flatten,
       S ++ ks.filter (hasTruthy fs)) := by
  induction ks with
  | nil => intro fs E S _; simp [loop1Fields]
  | cons k ks ih =>
      intro fs E S hnd
      rw [List.foldl_cons, processPreferred_eq_step]
      rw [ih (tagPrefFields k fs) _ _ (List.nodup_cons.mp hnd).2]
      have hne : ∀ k' ∈ ks, k' ≠ k := fun k' hk' he =>
        (List.nodup_cons.mp hnd).1 (he ▸ hk')
      have hcol : ks.map (colPrefE (tagPrefFields k fs)) =
          ks.map (colPrefE fs) :=
        List.map_congr_left
          (fun k' hk' => colPrefE_tagPref_ne fs k k' (hne k' hk'))
      have hft : ks.filter (hasTruthy (tagPrefFields k fs)) =
          ks.filter (hasTruthy fs) :=
        List.filter_congr
          (fun k' hk' => hasTruthy_tagPref_ne fs k k' (hne k' hk'))
      rw [hcol, hft]
      by_cases hh : hasTruthy fs k <;>
        simp [loop1Fields, List.filter_cons, hh, List.append_assoc]

theorem loop1Fields_lookup (ks : List String) :
    ∀ (fs : List (String × Json)) (k : String), ks.Nodup →
    List.lookup k (loop1Fields ks fs) =
      (List.lookup k fs).map
        (fun v => if k ∈ ks ∧ truthy v then tagValue k v else v) := by
  induction ks with
  | nil =>
      intro fs k _
      simp only [loop1Fields]
      cases List.lookup k fs <;> simp
  | cons k0 ks ih =>
      intro fs k hnd
      rw [loop1Fields, ih _ k (List.nodup_cons.mp hnd).2]
      by_cases hk : k = k0
      · subst hk
        have hkn : k ∉ ks := (List.nodup_cons.mp hnd).1
        cases hv : List.lookup k fs with
        | none => simp [tagPrefFields, hv]
        | some v =>
            by_cases ht : truthy v
            · simp only [tagPrefFields, hv, ht, if_true]
              rw [lookup_replaceFirst_eq fs k _ v hv]
              simp [hkn, ht, truthy_tagValue]
            · simp only [tagPrefFields, hv, ht, Bool.false_eq_true, if_false]
              simp [hkn, ht, hv]
      · rw [lookup_tagPref_ne fs k0 k hk]
        cases List.lookup k fs with
        | none => simp
        | some v => simp [List.mem_cons, hk]

theorem loop1_fix (ks : List String) :
    ∀ (fs2 : List (String × Json)) (E : List Json) (S : List String),
    (∀ k ∈ ks, ∀ v, List.lookup k fs2 = some v → truthy v = true →
      tagValue k v = v) →
    ks.foldl processPreferred (fs2, E, S) =
      (fs2, E ++ (ks.map (colPrefE fs2)).flatten,
       S ++ ks.filter (hasTruthy fs2)) := by
  induction ks with
  | nil => intro fs2 E S _; simp
  | cons k ks ih =>
      intro fs2 E S hfix
      rw [List.foldl_cons, processPreferred_eq_step]
      have hfld : tagPrefFields k fs2 = fs2 := by
        cases hv : List.lookup k fs2 with
        | none => simp [tagPrefFields, hv]
        | some v =>
            by_cases ht : truthy v
            · simp only [tagPrefFields, hv, ht, if_true]
              rw [hfix k (List.mem_cons_self _ _) v hv ht]
              exact replaceFirst_self fs2 k v hv
            · simp [tagPrefFields, hv, ht]
      rw [hfld,
        ih fs2 _ _ (fun k' hk' => hfix k' (List.mem_cons_of_mem _ hk'))]
      by_cases hh : hasTruthy fs2 k <;>
        simp [List.filter_cons, hh, List.append_assoc]

theorem aggregateDict_closed (fs : List (String × Json)) :
    aggregateDict fs =
      ((loop1Fields preferredKeys fs).map
          (gRest (preferredKeys.filter (hasTruthy fs))),
       (preferredKeys.map (colPrefE fs)).flatten ++
         ((loop1Fields preferredKeys fs).map
            (colRest (preferredKeys.filter (hasTruthy fs)))).flatten) := by
  rw [aggregateDict, loop1_closed preferredKeys fs [] [] (by decide)]
  rw [loop2_closed]
  simp

theorem except_ok_bind {α β : Type} (x : α) (f : α → Except PyErr β) :
    (Except.ok x >>= f) = f x := rfl

theorem except_error_bind {α β : Type} (e : PyErr) (f : α → Except PyErr β) :
    ((Except.error e : Except PyErr α) >>= f) = Except.error e := rfl

theorem gRest_pair (seen : List String) (q : String × Json) :
    gRest seen q = (q.1, gvRest seen q.1 q.2) := by
  by_cases hm : q.1 ∈ seen
  · simp [gRest, gvRest, hm, (contains_mem_iff seen q.1).mpr hm]
  · have hcb : seen.contains q.1 = false := by
      by_contra hcc
      simp only [Bool.not_eq_false] at hcc
      exact hm ((contains_mem_iff seen q.1).mp hcc)
    by_cases ht : truthy q.2
    · simp [gRest, gvRest, hm, hcb, ht]
    · simp [gRest, gvRest, hm, hcb, ht]

theorem aggregateDict_fst (fs : List (String × Json)) :
    (aggregateDict fs).1 =
      (loop1Fields preferredKeys fs).map
        (gRest (preferredKeys.filter (hasTruthy fs))) := by
  rw [aggregateDict_closed]

theorem aggregateDict_snd (fs : List (String × Json)) :
    (aggregateDict fs).2 =
      (preferredKeys.map (colPrefE fs)).flatten ++
        ((loop1Fields preferredKeys fs).map
          (colRest (preferredKeys.filter (hasTruthy fs)))).flatten := by
  rw [aggregateDict_closed]

theorem aggregateDict_lookup (fs : List (String × Json)) (k : String) :
    List.lookup k (aggregateDict fs).1 =
      (List.lookup k fs).map
        (fun v => if truthy v then tagValue k v else v) := by
  rw [aggregateDict_fst]
  rw [List.map_congr_left
    (fun q _ => gRest_pair (preferredKeys.filter (hasTruthy fs)) q)]
  rw [lookup_map_kv, loop1Fields_lookup preferredKeys fs k (by decide)]
  cases hv : List.lookup k fs with
  | none => rfl
  | some v =>
      simp only [Option.map_some']
      refine congrArg some ?_
      by_cases hp : k ∈ preferredKeys
      · by_cases ht : truthy v
        · have hh : hasTruthy fs k := by rw [hasTruthy, hv]; exact ht
          have hmem : k ∈ preferredKeys.filter (hasTruthy fs) :=
            List.mem_filter.mpr ⟨hp, hh⟩
          have hcon : (preferredKeys.filter (hasTruthy fs)).contains k :=
            (contains_mem_iff _ k).mpr hmem
          simp [gvRest, hp, ht, hcon, hmem]
        · have hh : ¬ hasTruthy fs k = true := by
            rw [hasTruthy, hv]; simp [ht]
          have hnm : k ∉ preferredKeys.filter (hasTruthy fs) := fun hin =>
            hh (List.mem_filter.mp hin).2
          have hcon : (preferredKeys.filter (hasTruthy fs)).contains k = false := by
            by_contra hcc
            simp only [Bool.not_eq_false] at hcc
            exact hnm ((contains_mem_iff _ k).mp hcc)
          simp [gvRest, hp, ht, hcon, hnm]
      · have hnm : k ∉ preferredKeys.filter (hasTruthy fs) := fun hin =>
          hp (List.mem_filter.mp hin).1
        have hcon : (preferredKeys.filter (hasTruthy fs)).contains k = false := by
          by_contra hcc
          simp only [Bool.not_eq_false] at hcc
          exact hnm ((contains_mem_iff _ k).mp hcc)
        simp [gvRest, hp, hcon, hnm]

theorem hasTruthy_agg (fs : List (String × Json)) (k : String) :
    hasTruthy (aggregateDict fs).1 k = hasTruthy fs k := by
  rw [hasTruthy, hasTruthy, aggregateDict_lookup]
  cases hv : List.lookup k fs with
  | none => rfl
  | some v =>
      by_cases ht : truthy v
      · simp [ht, truthy_tagValue]
      · simp [ht]

theorem colPrefE_agg (fs : List (String × Json)) (k : String) :
    colPrefE (aggregateDict fs).1 k = colPrefE fs k := by
  rw [colPrefE, colPrefE, aggregateDict_lookup]
  cases hv : List.lookup k fs with
  | none => rfl
  | some v =>
      by_cases ht : truthy v
      · simp [ht, truthy_tagValue, tagValue_idem]
      · simp [ht]

theorem gRest_idem (S : List String) (q : String × Json) :
    gRest S (gRest S q) = gRest S q := by
  by_cases hm : q.1 ∈ S
  · simp [gRest, hm]
  · by_cases ht : truthy q.2
    · simp [gRest, hm, ht, truthy_tagValue, tagValue_idem]
    · simp [gRest, hm, ht]

theorem colRest_gRest (S : List String) (q : String × Json) :
    colRest S (gRest S q) = colRest S q := by
  by_cases hm : q.1 ∈ S
  · simp [gRest, colRest, hm]
  · by_cases ht : truthy q.2
    · simp [gRest, colRest, hm, ht, truthy_tagValue, tagValue_idem]
    · simp [gRest, colRest, hm, ht]

theorem aggregateDict_rerun (fs : List (String × Json)) :
    aggregateDict (aggregateDict fs).1 = aggregateDict fs := by
  have hfix : ∀ k ∈ preferredKeys, ∀ v,
      List.lookup k (aggregateDict fs).1 = some v → truthy v = true →
      tagValue k v = v := by
    intro k _ v hv ht
    rw [aggregateDict_lookup] at hv
    cases hv0 : List.lookup k fs with
    | none => rw [hv0] at hv; exact absurd hv (by simp)
    | some v0 =>
        rw [hv0, Option.map_some'] at hv
        have hv' : (if truthy v0 then tagValue k v0 else v0) = v :=
          Option.some_inj.mp hv
        by_cases ht0 : truthy v0
        · rw [if_pos ht0] at hv'
          rw [← hv', tagValue_idem]
        · rw [if_neg ht0] at hv'
          rw [← hv'] at ht
          exact absurd ht ht0
  have h1 := loop1_fix preferredKeys (aggregateDict fs).1 [] [] hfix
  have hS : preferredKeys.filter (hasTruthy (aggregateDict fs).1) =
      preferredKeys.filter (hasTruthy fs) :=
    List.filter_congr (fun k _ => hasTruthy_agg fs k)
  have hE1 : preferredKeys.map (colPrefE (aggregateDict fs).1) =
      preferredKeys.map (colPrefE fs) :=
    List.map_congr_left (fun k _ => colPrefE_agg fs k)
  have hfstmap : ((aggregateDict fs).1).map
      (gRest (preferredKeys.filter (hasTruthy fs))) = (aggregateDict fs).1 := by
    rw [aggregateDict_fst, List.map_map]
    exact List.map_congr_left (fun q _ => gRest_idem _ _)
  have hcolmap : ((aggregateDict fs).1).map
      (colRest (preferredKeys.filter (hasTruthy fs))) =
      (loop1Fields preferredKeys fs).map
        (colRest (preferredKeys.filter (hasTruthy fs))) := by
    rw [aggregateDict_fst, List.map_map]
    exact List.map_congr_left (fun q _ => colRest_gRest _ _)
  show (let st1 := preferredKeys.foldl processPreferred
          ((aggregateDict fs).1, [], []);
        let st2 := st1.1.foldl (processRest st1.2.2) ([], st1.2.1);
        (st2.1, st2.2)) = aggregateDict fs
  rw [h1]
  simp only [List.nil_append]
  rw [loop2_closed, hS, hE1, hfstmap, hcolmap]
  rw [aggregateDict_closed fs]
  simp

theorem except_map_pair_ok {E : Except PyErr GADeckPrinter}
    {g : GADeckPrinter → GADeckPrinter × Json} {r : GADeckPrinter × Json}
    (h : E.map g = .ok r) : ∃ pp, E = .ok pp ∧ g pp = r := by
  cases E with
  | error e => simp [Except.map] at h
  | ok pp => exact ⟨pp, rfl, by simpa [Except.map] using h⟩

/-- Claim C8: normalization is idempotent and deterministic — when
`build_printer_from_deck_json` maps the input `d` to the printer `p` and
the (in-place mutated) value `d'`, running it again on that resulting
value yields the very same printer and the unchanged value, so the two
runs' uniform card lists are bit-identical, entry for entry, in the same
order. -/
theorem C8_idempotent (d : Json) (p : GADeckPrinter) (d' : Json)
    (h : build_printer_from_deck_json d = .ok (p, d')) :
    build_printer_from_deck_json d' = .ok (p, d') := by
  cases d with
  | obj rootFs =>
      cases hc : jget rootFs "cards" with
      | none =>
          simp only [build_printer_from_deck_json, hc] at h
          obtain ⟨pp, hr, hg⟩ := except_map_pair_ok h
          simp only [Prod.mk.injEq] at hg
          obtain ⟨hp, hd⟩ := hg
          subst hp
          subst hd
          have hc2 : jget ((aggregateDict rootFs).1) "cards" = none := by
            rw [jget, aggregateDict_lookup]
            rw [jget] at hc
            rw [hc]
            rfl
          simp only [build_printer_from_deck_json, hc2]
          rw [aggregateDict_rerun, hr]
          rfl
      | some v =>
          cases v with
          | null =>
              simp only [build_printer_from_deck_json, hc] at h
              obtain ⟨pp, hr, hg⟩ := except_map_pair_ok h
              simp only [Prod.mk.injEq] at hg
              obtain ⟨hp, hd⟩ := hg
              subst hp
              subst hd
              have hc2 : jget ((aggregateDict rootFs).1) "cards" =
                  some .null := by
                rw [jget, aggregateDict_lookup]
                rw [jget] at hc
                rw [hc]
                rfl
              simp only [build_printer_from_deck_json, hc2]
              rw [aggregateDict_rerun, hr]
              rfl
          | obj sub =>
              simp only [build_printer_from_deck_json, hc] at h
              obtain ⟨pp, hr, hg⟩ := except_map_pair_ok h
              simp only [Prod.mk.injEq] at hg
              obtain ⟨hp, hd⟩ := hg
              subst hp
              subst hd
              have hc2 : jget (replaceFirst rootFs "cards"
                  (.obj (aggregateDict sub).1)) "cards" =
                  some (.obj (aggregateDict sub).1) := by
                rw [jget]
                exact lookup_replaceFirst_eq rootFs "cards" _ _ hc
              simp only [build_printer_from_deck_json, hc2]
              rw [aggregateDict_rerun, hr]
              simp only [Except.map]
              rw [replaceFirst_replaceFirst]
          | arr l =>
              by_cases hl : l.isEmpty
              · have hl2 : (!l.isEmpty) = false := by rw [hl]; rfl
                simp only [build_printer_from_deck_json, hc, hl2,
                  Bool.false_eq_true, if_false] at h
                obtain ⟨pp, hr, hg⟩ := except_map_pair_ok h
                simp only [Prod.mk.injEq] at hg
                obtain ⟨hp, hd⟩ := hg
                subst hp
                subst hd
                simp only [build_printer_from_deck_json, hc, hl2,
                  Bool.false_eq_true, if_false]
                rw [hr]
                rfl
              · have hl2 : (!l.isEmpty) = true := by
                  rw [Bool.not_eq_true] at hl
                  rw [hl]
                  rfl
                simp only [build_printer_from_deck_json, hc, hl2,
                  if_true] at h
                cases hdn : getStrD rootFs "deck_name"
                    defaultPrinter.deck_name with
                | error e =>
                    rw [hdn, except_error_bind] at h
                    exact absurd h (by simp)
                | ok dn =>
                    rw [hdn, except_ok_bind] at h
                    cases hfold : l.foldlM addPrinterFormatCard
                        { defaultPrinter with deck_name := dn } with
                    | error e =>
                        rw [hfold, except_error_bind] at h
                        exact absurd h (by simp)
                    | ok pp =>
                        rw [hfold, except_ok_bind] at h
                        simp only [Except.ok.injEq, Prod.mk.injEq] at h
                        obtain ⟨hp, hd⟩ := h
                        subst hp
                        subst hd
                        simp only [build_printer_from_deck_json, hc, hl2,
                          if_true]
                        rw [hdn, except_ok_bind, hfold, except_ok_bind]
          | bool b =>
              simp only [build_printer_from_deck_json, hc] at h
              obtain ⟨pp, hr, hg⟩ := except_map_pair_ok h
              simp only [Prod.mk.injEq] at hg
              obtain ⟨hp, hd⟩ := hg
              subst hp
              subst hd
              simp only [build_printer_from_deck_json, hc]
              rw [hr]
              rfl
          | num n =>
              simp only [build_printer_from_deck_json, hc] at h
              obtain ⟨pp, hr, hg⟩ := except_map_pair_ok h
              simp only [Prod.mk.injEq] at hg
              obtain ⟨hp, hd⟩ := hg
              subst hp
              subst hd
              simp only [build_printer_from_deck_json, hc]
              rw [hr]
              rfl
          | str s =>
              simp only [build_printer_from_deck_json, hc] at h
              obtain ⟨pp, hr, hg⟩ := except_map_pair_ok h
              simp only [Prod.mk.injEq] at hg
              obtain ⟨hp, hd⟩ := hg
              subst hp
              subst hd
              simp only [build_printer_from_deck_json, hc]
              rw [hr]
              rfl
  | arr l =>
      simp only [build_printer_from_deck_json] at h
      obtain ⟨pp, hr, hg⟩ := except_map_pair_ok h
      simp only [Prod.mk.injEq] at hg
      obtain ⟨hp, hd⟩ := hg
      subst hp
      subst hd
      simp only [build_printer_from_deck_json]
      rw [hr]
      rfl
  | null =>
      simp only [build_printer_from_deck_json] at h
      obtain ⟨pp, hr, hg⟩ := except_map_pair_ok h
      simp only [Prod.mk.injEq] at hg
      obtain ⟨hp, hd⟩ := hg
      subst hp
      subst hd
      simp only [build_printer_from_deck_json]
      rw [hr]
      rfl
  | bool b =>
      simp only [build_printer_from_deck_json] at h
      obtain ⟨pp, hr, hg⟩ := except_map_pair_ok h
      simp only [Prod.mk.injEq] at hg
      obtain ⟨hp, hd⟩ := hg
      subst hp
      subst hd
      simp only [build_printer_from_deck_json]
      rw [hr]
      rfl
  | num n =>
      simp only [build_printer_from_deck_json] at h
      obtain ⟨pp, hr, hg⟩ := except_map_pair_ok h
      simp only [Prod.mk.injEq] at hg
      obtain ⟨hp, hd⟩ := hg
      subst hp
      subst hd
      simp only [build_printer_from_deck_json]
      rw [hr]
      rfl
  | str s =>
      simp only [build_printer_from_deck_json] at h
      obtain ⟨pp, hr, hg⟩ := except_map_pair_ok h
      simp only [Prod.mk.injEq] at hg
      obtain ⟨hp, hd⟩ := hg
      subst hp
      subst hd
      simp only [build_printer_from_deck_json]
      rw [hr]
      rfl




theorem C8_idempotent_witness :
    build_printer_from_deck_json w8d = .ok (w8p, w8d')
    ∧ build_printer_from_deck_json w8d' = .ok (w8p, w8d') :=
  ⟨rfl, C8_idempotent w8d w8p w8d' rfl⟩

theorem replaceFirst_keys (fs : List (String × Json)) (k : String)
    (v : Json) : (replaceFirst fs k v).map Prod.fst = fs.map Prod.fst := by
  induction fs with
  | nil => rfl
  | cons q rest ih =>
      by_cases hq : q.1 = k
      · have hb : (q.1 == k) = true := by simp [hq]
        simp [replaceFirst, hb]
      · have hb : (q.1 == k) = false := by simp [hq]
        simp [replaceFirst, hb, ih]

theorem tagPrefFields_keys (k : String) (fs : List (String × Json)) :
    (tagPrefFields k fs).map Prod.fst = fs.map Prod.fst := by
  cases hv : List.lookup k fs with
  | none => simp [tagPrefFields, hv]
  | some v =>
      by_cases ht : truthy v
      · simp only [tagPrefFields, hv, ht, if_true]
        exact replaceFirst_keys fs k _
      · simp [tagPrefFields, hv, ht]

theorem loop1Fields_keys (ks : List String) :
    ∀ fs : List (String × Json),
    (loop1Fields ks fs).map Prod.fst = fs.map Prod.fst := by
  induction ks with
  | nil => intro fs; rfl
  | cons k ks ih =>
      intro fs
      rw [loop1Fields, ih, tagPrefFields_keys]

theorem gRest_fst (S : List String) (q : String × Json) :
    (gRest S q).1 = q.1 := by
  rw [gRest_pair]

theorem aggregateDict_keys (fs : List (String × Json)) :
    ((aggregateDict fs).1).map Prod.fst = fs.map Prod.fst := by
  rw [aggregateDict_fst, List.map_map]
  rw [List.map_congr_left (fun q _ => by
    simp only [Function.comp_apply]
    exact gRest_fst _ q)]
  exact loop1Fields_keys preferredKeys fs

theorem lookup_none_of_not_mem_keys (fs : List (String × Json))
    (k : String) (h : k ∉ fs.map Prod.fst) : List.lookup k fs = none := by
  induction fs with
  | nil => rfl
  | cons q rest ih =>
      simp only [List.map_cons, List.mem_cons] at h
      push_neg at h
      have hb : (k == q.1) = false := by simp [h.1]
      simp [List.lookup, hb, ih h.2]

theorem assoc_ext (fs : List (String × Json)) :
    ∀ gs : List (String × Json),
    fs.map Prod.fst = gs.map Prod.fst →
    (fs.map Prod.fst).Nodup →
    (∀ k, List.lookup k fs = List.lookup k gs) → fs = gs := by
  induction fs with
  | nil =>
      intro gs hk _ _
      have : gs.map Prod.fst = [] := hk.symm
      rw [List.map_eq_nil_iff] at this
      rw [this]
  | cons q rest ih =>
      intro gs hk hnd hl
      cases gs with
      | nil => simp at hk
      | cons q' gs' =>
          simp only [List.map_cons, List.cons.injEq] at hk
          obtain ⟨hk1, hk2⟩ := hk
          have hself := hl q.1
          have hb : (q.1 == q.1) = true := by simp
          have hb' : (q.1 == q'.1) = true := by simp [hk1]
          simp only [List.lookup, hb, hb'] at hself
          have hv : q.2 = q'.2 := Option.some_inj.mp hself
          have hqq : q = q' := Prod.ext hk1 hv
          rw [List.map_cons] at hnd
          have hnd' := List.nodup_cons.mp hnd
          have htail : ∀ k, List.lookup k rest = List.lookup k gs' := by
            intro k
            by_cases hkq : k = q.1
            · rw [hkq]
              rw [lookup_none_of_not_mem_keys rest q.1 hnd'.1,
                lookup_none_of_not_mem_keys gs' q.1 (hk2 ▸ hnd'.1)]
            · have hb2 : (k == q.1) = false := by simp [hkq]
              have hb3 : (k == q'.1) = false := by
                rw [← hk1]
                exact hb2
              have := hl k
              simp only [List.lookup, hb2, hb3] at this
              exact this
          rw [hqq, ih gs' hk2 hnd'.2 htail]

theorem insertIfAbsent_eq_setdefault (fs : List (String × Json))
    (k : String) (v : Json) : insertIfAbsent fs k v = setdefault fs k v :=
  rfl

theorem c10Tag_eq (k : String) (v : Json) :
    (if truthy v then tagValue k v else v) = c10Tag k v := by
  cases v with
  | arr l => cases l <;> rfl
  | obj kvs =>
      cases kvs with
      | nil => rfl
      | cons q0 rest =>
          have ht : truthy (Json.obj (q0 :: rest)) = true := rfl
          rw [if_pos ht]
          simp only [tagValue, c10Tag]
          congr 1
          refine List.map_congr_left ?_
          intro q _
          cases hq : q.2 with
          | obj fs => simp [tagObjRecord, hq, insertIfAbsent_eq_setdefault]
          | null => simp [tagObjRecord, hq]
          | bool b => simp [tagObjRecord, hq]
          | num n => simp [tagObjRecord, hq]
          | str s => simp [tagObjRecord, hq]
          | arr l => simp [tagObjRecord, hq]
  | null => rfl
  | bool b => cases b <;> rfl
  | num n => exact ite_self _
  | str s => exact ite_self _

theorem aggregateDict_fst_pointwise (fs : List (String × Json))
    (hnd : (fs.map Prod.fst).Nodup) :
    (aggregateDict fs).1 = fs.map (fun q => (q.1, c10Tag q.1 q.2)) := by
  refine assoc_ext _ _ ?_ ?_ ?_
  · rw [aggregateDict_keys, List.map_map]
    rfl
  · rw [aggregateDict_keys]
    exact hnd
  · intro k
    rw [aggregateDict_lookup, lookup_map_kv]
    cases hv : List.lookup k fs with
    | none => rfl
    | some v =>
        simp only [Option.map_some']
        exact congrArg some (c10Tag_eq k v)

/-- Claim C10 (implicit frame effect): on a dict-valued `cards` root the
run does not leave its input unchanged — the caller's object comes back
with exactly the claimed insert-only tagging applied to every sub-deck:
each record dictionary of a mapping-valued sub-deck gains a `name` key
(its mapping key) and a `_source_deck` key (the sub-deck name) when
absent, records of list-valued sub-decks gain `_source_deck` when
absent, and nothing else is added or overwritten (`c10Tag` is the
spec-side description of that effect; key lists of Python dicts are
duplicate-free). -/
theorem C10_input_mutation (rootFs subFs : List (String × Json))
    (p : GADeckPrinter) (d' : Json)
    (hc : jget rootFs "cards" = some (.obj subFs))
    (hnd : (subFs.map Prod.fst).Nodup)
    (h : build_printer_from_deck_json (.obj rootFs) = .ok (p, d')) :
    d' = .obj (replaceFirst rootFs "cards"
      (.obj (subFs.map (fun q => (q.1, c10Tag q.1 q.2))))) := by
  simp only [build_printer_from_deck_json, hc] at h
  obtain ⟨pp, hr, hg⟩ := except_map_pair_ok h
  simp only [Prod.mk.injEq] at hg
  rw [← hg.2, aggregateDict_fst_pointwise subFs hnd]





theorem C10_input_mutation_witness :
    jget w10RootFs "cards" = some (.obj w10Sub)
    ∧ (w10Sub.map Prod.fst).Nodup
    ∧ build_printer_from_deck_json (.obj w10RootFs) = .ok (w10P, w10D')
    ∧ w10D' = .obj (replaceFirst w10RootFs "cards"
        (.obj (w10Sub.map (fun q => (q.1, c10Tag q.1 q.2))))) :=
  ⟨rfl, by decide, rfl,
    C10_input_mutation w10RootFs w10Sub w10P w10D' rfl (by decide) rfl⟩
